import Mathlib

/-!
Verification of the En Garde game server engine (`src/game.rs`, `src/protocol.rs`,
`src/main.rs`) against its specification.

The Rust code is shallowly embedded: structs become structures, `u8`/`u32`
values become `Nat` (the engine's arithmetic is guarded so that machine
overflow never occurs on the modelled paths; `saturating_sub` is exactly
truncated `Nat` subtraction), `Vec<u8>` becomes `List Nat`, and fallible
operations return `Except String` results paired with the final state,
mirroring `&mut self` methods returning `Result`.

Representation note for the deck (`yamafuda`): the Rust code stores the deck
in a `Vec` and draws with `pop()` from the back; the list here stores the same
stack with its *top at the head*, so a draw is head consumption.  Accordingly
`split_off(len - 5)` (dealing the five top cards) becomes `take 5`.
-/

set_option maxRecDepth 8000

namespace Engarde

/-- `protocol.rs`: player identifiers. -/
inductive PlayerID where
  | zero
  | one
  deriving DecidableEq, Repr

/-- `PlayerID::opposite`. -/
def PlayerID.opposite : PlayerID → PlayerID
  | .zero => .one
  | .one => .zero

/-- `protocol.rs`: movement directions. -/
inductive Direction where
  | forward
  | back
  deriving DecidableEq, Repr

/-- `game.rs`: board state (positions, scores, deck, current player). -/
structure Board where
  p0_pos : Nat
  p1_pos : Nat
  p0_score : Nat
  p1_score : Nat
  yamafuda : List Nat
  current_player : PlayerID
  deriving DecidableEq, Repr

/-- `game.rs` constant `MOST_LEFT_SIDE`. -/
def MOST_LEFT_SIDE : Nat := 1

/-- `game.rs` constant `MOST_RIGHT_SIDE`. -/
def MOST_RIGHT_SIDE : Nat := 23

/-- `Board::pos`. -/
def Board.pos (b : Board) (id : PlayerID) : Nat :=
  match id with
  | .zero => b.p0_pos
  | .one => b.p1_pos

/-- `Board::score`. -/
def Board.score (b : Board) (id : PlayerID) : Nat :=
  match id with
  | .zero => b.p0_score
  | .one => b.p1_score

/-- `game.rs`: round/turn outcome. -/
inductive Kekka where
  | REnd (winner : Option PlayerID)
  | Continue
  deriving DecidableEq, Repr

/-- `game.rs`: a player (id and hand). -/
structure Player where
  id : PlayerID
  hand : List Nat
  deriving DecidableEq, Repr

/-- `Player::can_move`: positional legality of a move (`saturating_sub` is `Nat` sub). -/
def Player.can_move (p : Player) (board : Board) (card : Nat) (direction : Direction) : Bool :=
  match p.id, direction with
  | .zero, .back => decide (MOST_LEFT_SIDE ≤ board.pos p.id - card)
  | .zero, .forward => decide (board.pos p.id + card < board.pos p.id.opposite)
  | .one, .back => decide (board.pos p.id + card ≤ MOST_RIGHT_SIDE)
  | .one, .forward => decide (board.pos p.id.opposite < board.pos p.id - card)

/-- `Player::can_attack`: the card must equal the inter-player distance. -/
def Player.can_attack (p : Player) (board : Board) (card : Nat) : Bool :=
  match p.id with
  | .zero => decide (board.pos p.id.opposite - board.pos p.id = card)
  | .one => decide (board.pos p.id - board.pos p.id.opposite = card)

/-- `Player::can_actions`: some card in hand allows an attack or a move. -/
def Player.can_actions (p : Player) (board : Board) : Bool :=
  let attacks := p.hand.any (fun card => p.can_attack board card)
  let move_forwards := p.hand.any (fun card => p.can_move board card Direction.forward)
  let move_backwards := p.hand.any (fun card => p.can_move board card Direction.back)
  attacks || move_forwards || move_backwards

/-- Indices (ascending) of the occurrences of `card` in a hand:
`hand.iter().enumerate().filter(|(_, v)| v == card).map(|(i, _)| i).collect()`. -/
def positionsOf (hand : List Nat) (card : Nat) : List Nat :=
  (hand.enum.filter (fun iv => iv.2 == card)).map (fun iv => iv.1)

/-- `Player::card_pos`: index of the first occurrence of `card`. -/
def Player.card_pos (p : Player) (card : Nat) : Option Nat :=
  p.hand.findIdx? (fun x => x == card)

/-- `Player::card_positions`. -/
def Player.card_positions (p : Player) (card : Nat) : List Nat :=
  positionsOf p.hand card

/-- `Player::remove_card`. -/
def Player.remove_card (p : Player) (index : Nat) : Player :=
  { p with hand := p.hand.eraseIdx index }

/-- `Player::push_card`. -/
def Player.push_card (p : Player) (card : Nat) : Player :=
  { p with hand := p.hand ++ [card] }

/-- `Player::count_card`. -/
def Player.count_card (p : Player) (card : Nat) : Nat :=
  p.hand.count card

/-- Erasing, one after the other, the hand slots listed in `ixs`
(`for_each(|index| self.player_mut(..).remove_card(index))`). -/
def removeIdxs (hand : List Nat) (ixs : List Nat) : List Nat :=
  ixs.foldl (fun h i => h.eraseIdx i) hand

/-- `game.rs`: the match engine state. -/
structure GameManager where
  p0 : Player
  p1 : Player
  board : Board
  first_player : PlayerID
  game_end : Option PlayerID
  max_win : Nat
  deriving DecidableEq, Repr

/-- `GameManager::new`, parameterised by the shuffled 25-card deck
(`Yamafuda::create()` only guarantees the multiset composition).
The top five cards go to player zero, the next five to player one. -/
def GameManager.new (yamafuda : List Nat) (max_win : Nat) : GameManager :=
  { p0 := { id := .zero, hand := yamafuda.take 5 }
    p1 := { id := .one, hand := (yamafuda.drop 5).take 5 }
    board := { p0_pos := MOST_LEFT_SIDE, p1_pos := MOST_RIGHT_SIDE,
               p0_score := 0, p1_score := 0,
               yamafuda := yamafuda.drop 10, current_player := .zero }
    first_player := .zero
    game_end := none
    max_win := max_win }

/-- `GameManager::player`. -/
def GameManager.player (g : GameManager) (id : PlayerID) : Player :=
  match id with
  | .zero => g.p0
  | .one => g.p1

/-- Writing through `GameManager::player_mut`. -/
def GameManager.set_player (g : GameManager) (id : PlayerID) (p : Player) : GameManager :=
  match id with
  | .zero => { g with p0 := p }
  | .one => { g with p1 := p }

/-- Writing the deck through `self.board.yamafuda`. -/
def GameManager.set_yamafuda (g : GameManager) (yamafuda : List Nat) : GameManager :=
  { g with board := { g.board with yamafuda := yamafuda } }

/-- Writing through `GameManager::current_playerid_mut`. -/
def GameManager.set_current (g : GameManager) (id : PlayerID) : GameManager :=
  { g with board := { g.board with current_player := id } }

/-- `GameManager::move_player`. -/
def GameManager.move_player (g : GameManager) (id : PlayerID) (direction : Direction)
    (card : Nat) : GameManager :=
  match id, direction with
  | .zero, .back => { g with board := { g.board with p0_pos := g.board.p0_pos - card } }
  | .zero, .forward => { g with board := { g.board with p0_pos := g.board.p0_pos + card } }
  | .one, .back => { g with board := { g.board with p1_pos := g.board.p1_pos + card } }
  | .one, .forward => { g with board := { g.board with p1_pos := g.board.p1_pos - card } }

/-- `GameManager::round_end_yamafuda`: the deck-exhaustion tie-break. -/
def GameManager.round_end_yamafuda (g : GameManager) : Kekka × GameManager :=
  let distance := g.board.pos .one - g.board.pos .zero
  let have0 := (g.player .zero).count_card distance
  let have1 := (g.player .one).count_card distance
  if have0 < have1 then
    let g1 := { g with board := { g.board with p1_score := g.board.p1_score + 1 } }
    let g2 := if g1.max_win ≤ g1.board.p1_score then { g1 with game_end := some .one } else g1
    (Kekka.REnd (some .one), g2)
  else if have1 < have0 then
    let g1 := { g with board := { g.board with p0_score := g.board.p0_score + 1 } }
    let g2 := if g1.max_win ≤ g1.board.p0_score then { g1 with game_end := some .zero } else g1
    (Kekka.REnd (some .zero), g2)
  else
    let distance_from_opposite_0 := MOST_RIGHT_SIDE - g.board.pos .zero
    let distance_from_opposite_1 := g.board.pos .one - MOST_LEFT_SIDE
    if distance_from_opposite_0 < distance_from_opposite_1 then
      let g1 := { g with board := { g.board with p0_score := g.board.p0_score + 1 } }
      let g2 := if g1.max_win ≤ g1.board.p0_score then { g1 with game_end := some .zero } else g1
      (Kekka.REnd (some .zero), g2)
    else if distance_from_opposite_1 < distance_from_opposite_0 then
      let g1 := { g with board := { g.board with p1_score := g.board.p1_score + 1 } }
      let g2 := if g1.max_win ≤ g1.board.p1_score then { g1 with game_end := some .one } else g1
      (Kekka.REnd (some .one), g2)
    else
      (Kekka.REnd none, g)

/-- `GameManager::round_end_attack`: the round is instantly won by `id`. -/
def GameManager.round_end_attack (g : GameManager) (id : PlayerID) : Kekka × GameManager :=
  let g1 := match id with
    | .zero => { g with board := { g.board with p0_score := g.board.p0_score + 1 } }
    | .one => { g with board := { g.board with p1_score := g.board.p1_score + 1 } }
  let g2 := if g1.max_win ≤ g1.board.score id then { g1 with game_end := some id } else g1
  (Kekka.REnd (some id), g2)

/-- `GameManager::round_end_tumi`: the round is won by `id` through stalemate. -/
def GameManager.round_end_tumi (g : GameManager) (id : PlayerID) : Kekka × GameManager :=
  let g1 := match id with
    | .zero => { g with board := { g.board with p0_score := g.board.p0_score + 1 } }
    | .one => { g with board := { g.board with p1_score := g.board.p1_score + 1 } }
  let g2 := if g1.max_win ≤ g1.board.score id then { g1 with game_end := some id } else g1
  (Kekka.REnd (some id), g2)

/-- Result of the replenishment loop (`// 回収作業` in `play_movement`/`play_attack`):
either the loop exits normally (hand back at five cards) or the deck ran dry and
the deck-exhaustion tie-break must resolve the round. -/
inductive KaishuuResult where
  | tiebreak (hand : List Nat) (yamafuda : List Nat)
  | full (hand : List Nat) (yamafuda : List Nat)
  deriving DecidableEq, Repr

/-- The replenishment loop: draw until the hand holds five cards; if the deck is
empty on a draw, or becomes empty right after a draw, stop for the tie-break. -/
def kaishuu (hand : List Nat) (yamafuda : List Nat) : KaishuuResult :=
  if hand.length < 5 then
    match yamafuda with
    | [] => .tiebreak hand []
    | card :: rest =>
      if rest.isEmpty then .tiebreak (hand ++ [card]) rest
      else kaishuu (hand ++ [card]) rest
  else .full hand yamafuda

/-- `protocol.rs`: a movement action (`PlayCard`, `Direction`). -/
structure PlayMovement where
  play_card : Nat
  direction : Direction
  deriving DecidableEq, Repr

/-- `protocol.rs`: an attack action (`PlayCard`, `NumOfCard`). -/
structure PlayAttack where
  play_card : Nat
  num_of_card : Nat
  deriving DecidableEq, Repr

/-- `GameManager::play_movement`.  The pair carries the final state, mirroring
the in-place mutation of `&mut self`; validation failures leave the state as it
was. -/
def GameManager.play_movement (g : GameManager) (id : PlayerID) (movement : PlayMovement) :
    Except String Kekka × GameManager :=
  match (g.player id).card_pos movement.play_card with
  | none => (.error "そのカードは持ってません!", g)
  | some index =>
    if (g.player id).can_move g.board movement.play_card movement.direction then
      let g1 := (g.set_player id ((g.player id).remove_card index)).move_player id
        movement.direction movement.play_card
      if !((g1.player id.opposite).can_actions g1.board) then
        (.ok (g1.round_end_tumi id).1, (g1.round_end_tumi id).2)
      else
        match kaishuu (g1.player id).hand g1.board.yamafuda with
        | .full hand yamafuda =>
          (.ok Kekka.Continue,
            (g1.set_player id { g1.player id with hand := hand }).set_yamafuda yamafuda)
        | .tiebreak hand yamafuda =>
          let g2 := (g1.set_player id { g1.player id with hand := hand }).set_yamafuda yamafuda
          (.ok (g2.round_end_yamafuda).1, (g2.round_end_yamafuda).2)
    else (.error "そちらへは動けません!", g)

/-- The full-defense branch of `GameManager::play_attack` (defender holds at
least as many copies as the attacker): both sides shed all the attacker's
matching cards, then the stalemate check and the replenishment run. -/
def GameManager.attack_full_defense (g : GameManager) (id : PlayerID) (card : Nat) :
    Except String Kekka × GameManager :=
  let indicies := (g.player id).card_positions card
  let indicies_opposite := (g.player id.opposite).card_positions card
  let g1 := g.set_player id.opposite { g.player id.opposite with
    hand := removeIdxs (g.player id.opposite).hand (indicies_opposite.reverse.take indicies.length) }
  let g2 := g1.set_player id { g1.player id with
    hand := removeIdxs (g1.player id).hand indicies.reverse }
  if !((g2.player id.opposite).can_actions g2.board) then
    (.ok (Kekka.REnd (some id)), g2)
  else
    match kaishuu (g2.player id).hand g2.board.yamafuda with
    | .full hand yamafuda =>
      (.ok Kekka.Continue,
        (g2.set_player id { g2.player id with hand := hand }).set_yamafuda yamafuda)
    | .tiebreak hand yamafuda =>
      let g3 := (g2.set_player id { g2.player id with hand := hand }).set_yamafuda yamafuda
      (.ok (g3.round_end_yamafuda).1, (g3.round_end_yamafuda).2)

/-- `GameManager::play_attack`. -/
def GameManager.play_attack (g : GameManager) (id : PlayerID) (attack : PlayAttack) :
    Except String Kekka × GameManager :=
  let indicies := (g.player id).card_positions attack.play_card
  if attack.num_of_card ≤ indicies.length ∧
      (g.player id).can_attack g.board attack.play_card = true then
    let indicies_opposite := (g.player id.opposite).card_positions attack.play_card
    if indicies.length ≤ indicies_opposite.length then
      g.attack_full_defense id attack.play_card
    else
      (.ok (g.round_end_attack id).1, (g.round_end_attack id).2)
  else (.error "攻撃はとどかないか、そんなに枚数持っていません！", g)

/-- `GameManager::reset_round`, parameterised by the fresh shuffled deck. -/
def GameManager.reset_round (g : GameManager) (yamafuda : List Nat) : GameManager :=
  { g with
    p0 := { g.p0 with hand := yamafuda.take 5 }
    p1 := { g.p1 with hand := (yamafuda.drop 5).take 5 }
    board := { g.board with
               p0_pos := MOST_LEFT_SIDE
               p1_pos := MOST_RIGHT_SIDE
               yamafuda := yamafuda.drop 10 } }

/-- `GameManager::change_first_player`. -/
def GameManager.change_first_player (g : GameManager) : GameManager :=
  let first := g.first_player.opposite
  { g with first_player := first, board := { g.board with current_player := first } }

/-- `protocol.rs`: the private hand snapshot. -/
structure HandInfo where
  hand1 : Nat
  hand2 : Nat
  hand3 : Nat
  hand4 : Option Nat
  hand5 : Option Nat
  deriving DecidableEq, Repr

/-- `HandInfo::from_vec`: the first three slots are `unwrap`ped; a hand of fewer
than three cards makes the construction fail (a panic in the Rust code),
modelled by `none`. -/
def HandInfo.from_vec (v : List Nat) : Option HandInfo :=
  match v.get? 0, v.get? 1, v.get? 2 with
  | some h1, some h2, some h3 =>
    some { hand1 := h1, hand2 := h2, hand3 := h3, hand4 := v.get? 3, hand5 := v.get? 4 }
  | _, _, _ => none

/-- What `Yamafuda::create()` guarantees about a fresh deck: 25 cards, each
rank 1..5 exactly five times. -/
def validInitialDeck (yamafuda : List Nat) : Prop :=
  yamafuda.length = 25 ∧ (∀ r ∈ [1, 2, 3, 4, 5], yamafuda.count r = 5) ∧
    ∀ c ∈ yamafuda, 1 ≤ c ∧ c ≤ 5

instance (yamafuda : List Nat) : Decidable (validInitialDeck yamafuda) := by
  unfold validInitialDeck; infer_instance

/-- The turn-top states of `main.rs`: the initial deal, then after every
resolved `Continue` action the turn passes to the opponent
(`process_round`), and after every round end `reset_round` and
`change_first_player` run (`main`).  Failed validations retry without
mutating the state, so they add no transition. -/
inductive Reaches : GameManager → Prop where
  | init (yamafuda : List Nat) (max_win : Nat) (h : validInitialDeck yamafuda) :
      Reaches (GameManager.new yamafuda max_win)
  | move_continue (g g' : GameManager) (movement : PlayMovement) (hg : Reaches g)
      (h : g.play_movement g.board.current_player movement = (.ok Kekka.Continue, g')) :
      Reaches (g'.set_current g'.board.current_player.opposite)
  | attack_continue (g g' : GameManager) (attack : PlayAttack) (hg : Reaches g)
      (h : g.play_attack g.board.current_player attack = (.ok Kekka.Continue, g')) :
      Reaches (g'.set_current g'.board.current_player.opposite)
  | move_round_end (g g' : GameManager) (movement : PlayMovement) (w : Option PlayerID)
      (yamafuda : List Nat) (hg : Reaches g)
      (h : g.play_movement g.board.current_player movement = (.ok (Kekka.REnd w), g'))
      (hd : validInitialDeck yamafuda) :
      Reaches ((g'.reset_round yamafuda).change_first_player)
  | attack_round_end (g g' : GameManager) (attack : PlayAttack) (w : Option PlayerID)
      (yamafuda : List Nat) (hg : Reaches g)
      (h : g.play_attack g.board.current_player attack = (.ok (Kekka.REnd w), g'))
      (hd : validInitialDeck yamafuda) :
      Reaches ((g'.reset_round yamafuda).change_first_player)

/-- Total number of cards still in play: deck plus both hands. -/
def totalLen (g : GameManager) : Nat :=
  g.board.yamafuda.length + g.p0.hand.length + g.p1.hand.length

/-- The inductive invariant of reachable turn-top states. -/
def Inv (g : GameManager) : Prop :=
  g.p0.id = .zero ∧ g.p1.id = .one ∧
  1 ≤ g.board.p0_pos ∧ g.board.p0_pos < g.board.p1_pos ∧ g.board.p1_pos ≤ 23 ∧
  3 ≤ (g.player g.board.current_player).hand.length ∧
  (g.player g.board.current_player).hand.length ≤ 5 ∧
  (g.player g.board.current_player.opposite).hand.length = 5 ∧
  (∀ c, g.board.yamafuda.count c + g.p0.hand.count c + g.p1.hand.count c ≤ 5) ∧
  totalLen g ≤ 25

/-! ## Lemmas about occurrence positions and index-list removal -/

theorem posFrom_shift (xs : List Nat) (c : Nat) (n : Nat) :
    ((xs.enumFrom (n + 1)).filter (fun iv => iv.2 == c)).map (fun iv => iv.1) =
      (((xs.enumFrom n).filter (fun iv => iv.2 == c)).map (fun iv => iv.1)).map (· + 1) := by
  induction xs generalizing n with
  | nil => simp
  | cons x xs ih =>
    simp only [List.enumFrom_cons, List.filter_cons]
    by_cases hx : x = c
    · simp [hx, ih]
    · simp [hx, ih]

theorem positionsOf_nil (c : Nat) : positionsOf [] c = [] := rfl

theorem positionsOf_cons (x : Nat) (xs : List Nat) (c : Nat) :
    positionsOf (x :: xs) c =
      if x = c then 0 :: (positionsOf xs c).map (· + 1)
      else (positionsOf xs c).map (· + 1) := by
  unfold positionsOf
  simp only [List.enum_cons, List.filter_cons, List.enum]
  by_cases hx : x = c
  · simp [hx, posFrom_shift]
  · simp [hx, posFrom_shift]

theorem positionsOf_length (hand : List Nat) (c : Nat) :
    (positionsOf hand c).length = hand.count c := by
  induction hand with
  | nil => rfl
  | cons x xs ih =>
    rw [positionsOf_cons]
    by_cases hx : x = c
    · simp [hx, ih, List.count_cons]
    · simp [hx, ih, List.count_cons]

theorem removeIdxs_nil (hand : List Nat) : removeIdxs hand [] = hand := rfl

theorem removeIdxs_cons (hand : List Nat) (i : Nat) (ixs : List Nat) :
    removeIdxs hand (i :: ixs) = removeIdxs (hand.eraseIdx i) ixs := rfl

theorem removeIdxs_append (hand a b : List Nat) :
    removeIdxs hand (a ++ b) = removeIdxs (removeIdxs hand a) b :=
  List.foldl_append _ _ _ _

theorem removeIdxs_shift (x : Nat) (xs : List Nat) (ixs : List Nat) :
    removeIdxs (x :: xs) (ixs.map (· + 1)) = x :: removeIdxs xs ixs := by
  induction ixs generalizing xs with
  | nil => rfl
  | cons i t ih =>
    simp only [List.map_cons, removeIdxs_cons, List.eraseIdx_cons_succ]
    exact ih _

theorem removeIdxs_positions_reverse (hand : List Nat) (c : Nat) :
    removeIdxs hand (positionsOf hand c).reverse = hand.filter (fun x => !(x == c)) := by
  induction hand with
  | nil => rfl
  | cons x xs ih =>
    rw [positionsOf_cons]
    by_cases hx : x = c
    · rw [if_pos hx, List.reverse_cons, ← List.map_reverse, removeIdxs_append,
        removeIdxs_shift, ih]
      have hb : (x == c) = true := by simp [hx]
      simp [List.filter_cons, hb, removeIdxs]
    · rw [if_neg hx, ← List.map_reverse, removeIdxs_shift, ih]
      have hb : (x == c) = false := by simp [hx]
      simp [List.filter_cons, hb]

theorem filter_ne_length (hand : List Nat) (c : Nat) :
    (hand.filter (fun x => !(x == c))).length + hand.count c = hand.length := by
  induction hand with
  | nil => rfl
  | cons x xs ih =>
    by_cases hx : x = c
    · have hb : (x == c) = true := by simp [hx]
      simp [List.filter_cons, hb, List.count_cons]
      omega
    · have hb : (x == c) = false := by simp [hx]
      simp [List.filter_cons, hb, List.count_cons]
      omega

theorem filter_ne_count (hand : List Nat) (c c' : Nat) :
    (hand.filter (fun x => !(x == c))).count c' = if c' = c then 0 else hand.count c' := by
  induction hand with
  | nil => simp
  | cons x xs ih =>
    by_cases hx : x = c
    · have hb : (x == c) = true := by simp [hx]
      rw [List.filter_cons]
      simp only [hb, Bool.not_true]
      rw [if_neg (by simp), ih]
      by_cases hc : c' = c
      · simp [hc]
      · have hb2 : (x == c') = false := by
          subst hx
          simp only [beq_eq_false_iff_ne, ne_eq]
          exact fun hcc => hc hcc.symm
        simp [hc, List.count_cons, hb2]
    · have hb : (x == c) = false := by simp [hx]
      rw [List.filter_cons]
      simp only [hb, Bool.not_false]
      rw [if_pos trivial, List.count_cons, ih]
      by_cases hc : c' = c
      · have hb2 : (x == c') = false := by subst hc; simp [hx]
        simp [hc, hb2, hx]
      · simp [hc, List.count_cons]

/-- Helper: counting in a cons, phrased with propositional equality. -/
theorem count_cons_nat (c' x : Nat) (L : List Nat) :
    List.count c' (x :: L) = List.count c' L + if x = c' then 1 else 0 := by
  rw [List.count_cons]
  by_cases h : x = c'
  · simp [h]
  · simp [h]

/-- Removing the `k` highest-indexed occurrences of `c` (as `play_attack` does to
the defender) shortens the hand by exactly `k` and lowers only the count of `c`,
by exactly `k`. -/
theorem removeIdxs_positions_take (hand : List Nat) (c k : Nat) (hk : k ≤ hand.count c) :
    (removeIdxs hand ((positionsOf hand c).reverse.take k)).length + k = hand.length ∧
    ∀ c', (removeIdxs hand ((positionsOf hand c).reverse.take k)).count c' +
      (if c' = c then k else 0) = hand.count c' := by
  induction hand generalizing k with
  | nil =>
    have hz : k = 0 := by simpa using hk
    subst hz
    simp [removeIdxs, positionsOf_nil]
  | cons x xs ih =>
    rw [positionsOf_cons]
    by_cases hx : x = c
    · rw [if_pos hx, List.reverse_cons, ← List.map_reverse]
      have hcnt : (x :: xs).count c = xs.count c + 1 := by
        rw [count_cons_nat, if_pos hx]
      have hlenrev : ((positionsOf xs c).reverse.map (· + 1)).length = xs.count c := by
        simp [positionsOf_length]
      by_cases hk2 : k ≤ xs.count c
      · have htake : (((positionsOf xs c).reverse.map (· + 1)) ++ [0]).take k =
            ((positionsOf xs c).reverse.take k).map (· + 1) := by
          rw [List.take_append_eq_append_take]
          have h0 : k - ((positionsOf xs c).reverse.map (· + 1)).length = 0 := by omega
          rw [h0]
          simp only [List.take_zero, List.append_nil]
          rw [← List.map_take]
        rw [htake, removeIdxs_shift]
        obtain ⟨ihl, ihc⟩ := ih k hk2
        refine ⟨by simp only [List.length_cons]; omega, fun c' => ?_⟩
        have hih := ihc c'
        rw [count_cons_nat, count_cons_nat]
        by_cases hc : c' = c
        · subst hc
          rw [if_pos rfl] at hih ⊢
          rw [if_pos hx]
          omega
        · rw [if_neg hc] at hih ⊢
          have hxc : ¬ x = c' := fun he => hc (he.symm.trans hx)
          rw [if_neg hxc]
          omega
      · have hkeq : k = xs.count c + 1 := by omega
        have htake : (((positionsOf xs c).reverse.map (· + 1)) ++ [0]).take k =
            ((positionsOf xs c).reverse.map (· + 1)) ++ [0] := by
          apply List.take_of_length_le
          rw [List.length_append, hlenrev]
          simp
          omega
        rw [htake, removeIdxs_append, removeIdxs_shift, removeIdxs_positions_reverse]
        rw [removeIdxs_cons, List.eraseIdx_cons_zero, removeIdxs_nil]
        constructor
        · have := filter_ne_length xs c
          simp only [List.length_cons]
          omega
        · intro c'
          rw [filter_ne_count, count_cons_nat]
          by_cases hc : c' = c
          · subst hc
            rw [if_pos rfl, if_pos rfl, if_pos hx]
            omega
          · have hxc : ¬ x = c' := fun he => hc (he.symm.trans hx)
            rw [if_neg hc, if_neg hc, if_neg hxc]
    · rw [if_neg hx, ← List.map_reverse]
      have hcnt : (x :: xs).count c = xs.count c := by
        rw [count_cons_nat, if_neg hx]
        omega
      have htake : (((positionsOf xs c).reverse.map (· + 1))).take k =
          ((positionsOf xs c).reverse.take k).map (· + 1) := by
        rw [← List.map_take]
      rw [htake, removeIdxs_shift]
      obtain ⟨ihl, ihc⟩ := ih k (by omega)
      refine ⟨by simp only [List.length_cons]; omega, fun c' => ?_⟩
      have hih := ihc c'
      rw [count_cons_nat, count_cons_nat]
      by_cases hc : c' = c
      · subst hc
        rw [if_pos rfl] at hih ⊢
        rw [if_neg hx]
        omega
      · rw [if_neg hc] at hih ⊢
        by_cases hxc : x = c'
        · rw [if_pos hxc]
          omega
        · rw [if_neg hxc]
          omega

/-! ## Lemmas about `card_pos` (first-occurrence removal is `List.erase`) -/

theorem findIdx_shift_erase (hand : List Nat) (c : Nat) (n i : Nat)
    (h : hand.findIdx? (fun x => x == c) n = some i) :
    n ≤ i ∧ hand.eraseIdx (i - n) = hand.erase c ∧ c ∈ hand := by
  induction hand generalizing n with
  | nil => simp [List.findIdx?] at h
  | cons x xs ih =>
    rw [List.findIdx?_cons] at h
    by_cases hx : x = c
    · have hb : (x == c) = true := by simp [hx]
      rw [hb, if_pos rfl] at h
      obtain rfl : n = i := by simpa using h
      refine ⟨le_refl _, ?_, by simp [hx]⟩
      simp [List.erase_cons, hb]
    · have hb : (x == c) = false := by simp [hx]
      rw [hb, if_neg (by simp)] at h
      obtain ⟨hle, herase, hmem⟩ := ih (n + 1) h
      refine ⟨by omega, ?_, by simp [hmem]⟩
      have his : i - n = (i - (n + 1)) + 1 := by omega
      rw [his, List.eraseIdx_cons_succ, herase, List.erase_cons, hb]
      simp

theorem card_pos_some_erase (p : Player) (c : Nat) (i : Nat)
    (h : p.card_pos c = some i) :
    p.hand.eraseIdx i = p.hand.erase c ∧ c ∈ p.hand := by
  have h2 := findIdx_shift_erase p.hand c 0 i h
  exact ⟨by simpa using h2.2.1, h2.2.2⟩

theorem card_pos_none_iff (p : Player) (c : Nat) :
    p.card_pos c = none ↔ c ∉ p.hand := by
  unfold Player.card_pos
  rw [List.findIdx?_eq_none_iff]
  constructor
  · intro h hmem
    have := h c hmem
    simp at this
  · intro h x hx
    have hxc : x ≠ c := fun he => h (he ▸ hx)
    simp [hxc]

/-! ## Lemmas about the replenishment loop -/

theorem kaishuu_nil (hand : List Nat) :
    kaishuu hand [] = if hand.length < 5 then .tiebreak hand [] else .full hand [] := by
  rw [kaishuu.eq_def]

theorem kaishuu_cons (hand : List Nat) (card : Nat) (rest : List Nat) :
    kaishuu hand (card :: rest) =
      if hand.length < 5 then
        (if rest.isEmpty then KaishuuResult.tiebreak (hand ++ [card]) rest
          else kaishuu (hand ++ [card]) rest)
      else .full hand (card :: rest) := by
  rw [kaishuu.eq_def]

theorem kaishuu_full_of_ge (hand deck : List Nat) (h : 5 ≤ hand.length) :
    kaishuu hand deck = .full hand deck := by
  rw [kaishuu.eq_def, if_neg (by omega)]

theorem kaishuu_full_of_lt (hand deck h' d' : List Nat) (hlen : hand.length < 5)
    (h : kaishuu hand deck = .full h' d') : h'.length = 5 ∧ d' ≠ [] := by
  induction deck generalizing hand with
  | nil =>
    rw [kaishuu_nil, if_pos hlen] at h
    exact absurd h (by simp)
  | cons card rest ih =>
    rw [kaishuu_cons, if_pos hlen] at h
    by_cases hr : rest.isEmpty
    · rw [if_pos hr] at h
      exact absurd h (by simp)
    · rw [if_neg hr] at h
      by_cases h5 : (hand ++ [card]).length < 5
      · exact ih _ h5 h
      · rw [kaishuu_full_of_ge _ _ (by omega)] at h
        injection h with h1 h2
        subst h1
        subst h2
        refine ⟨?_, ?_⟩
        · simp only [List.length_append, List.length_cons, List.length_nil] at h5 ⊢
          omega
        · intro hrest
          rw [hrest] at hr
          simp at hr

theorem kaishuu_count (hand deck h' d' : List Nat)
    (h : kaishuu hand deck = .full h' d' ∨ kaishuu hand deck = .tiebreak h' d') :
    ∀ c, h'.count c + d'.count c = hand.count c + deck.count c := by
  induction deck generalizing hand with
  | nil =>
    rcases h with h | h <;> rw [kaishuu_nil] at h
    · split at h
      · exact absurd h (by simp)
      · injection h with h1 h2
        subst h1
        subst h2
        intro c
        rfl
    · split at h
      · injection h with h1 h2
        subst h1
        subst h2
        intro c
        rfl
      · exact absurd h (by simp)
  | cons card rest ih =>
    by_cases h5 : hand.length < 5
    · rcases h with h | h <;> rw [kaishuu_cons, if_pos h5] at h
      · by_cases hr : rest.isEmpty
        · rw [if_pos hr] at h
          exact absurd h (by simp)
        · rw [if_neg hr] at h
          intro c
          have hcc := ih _ (Or.inl h) c
          rw [List.count_append, count_cons_nat] at hcc
          rw [count_cons_nat]
          simp only [List.count_nil] at hcc
          by_cases hxc : card = c
          · rw [if_pos hxc] at hcc ⊢
            omega
          · rw [if_neg hxc] at hcc ⊢
            omega
      · by_cases hr : rest.isEmpty
        · rw [if_pos hr] at h
          injection h with h1 h2
          subst h1
          subst h2
          have hrnil : rest = [] := List.isEmpty_iff.mp hr
          subst hrnil
          intro c
          rw [List.count_append, count_cons_nat]
          simp only [List.count_nil, Nat.add_zero, Nat.zero_add]
        · rw [if_neg hr] at h
          intro c
          have hcc := ih _ (Or.inr h) c
          rw [List.count_append, count_cons_nat] at hcc
          rw [count_cons_nat]
          simp only [List.count_nil] at hcc
          by_cases hxc : card = c
          · rw [if_pos hxc] at hcc ⊢
            omega
          · rw [if_neg hxc] at hcc ⊢
            omega
    · rcases h with h | h <;> rw [kaishuu_full_of_ge _ _ (by omega)] at h
      · injection h with h1 h2
        subst h1
        subst h2
        intro c
        rfl
      · exact absurd h (by simp)

theorem kaishuu_length (hand deck h' d' : List Nat)
    (h : kaishuu hand deck = .full h' d' ∨ kaishuu hand deck = .tiebreak h' d') :
    h'.length + d'.length = hand.length + deck.length := by
  induction deck generalizing hand with
  | nil =>
    rcases h with h | h <;> rw [kaishuu_nil] at h
    · split at h
      · exact absurd h (by simp)
      · injection h with h1 h2
        subst h1
        subst h2
        rfl
    · split at h
      · injection h with h1 h2
        subst h1
        subst h2
        rfl
      · exact absurd h (by simp)
  | cons card rest ih =>
    by_cases h5 : hand.length < 5
    · rcases h with h | h <;> rw [kaishuu_cons, if_pos h5] at h
      · by_cases hr : rest.isEmpty
        · rw [if_pos hr] at h
          exact absurd h (by simp)
        · rw [if_neg hr] at h
          have hcc := ih _ (Or.inl h)
          simp only [List.length_append, List.length_cons, List.length_nil] at hcc ⊢
          omega
      · by_cases hr : rest.isEmpty
        · rw [if_pos hr] at h
          injection h with h1 h2
          subst h1
          subst h2
          have hrnil : rest = [] := List.isEmpty_iff.mp hr
          subst hrnil
          simp
        · rw [if_neg hr] at h
          have hcc := ih _ (Or.inr h)
          simp only [List.length_append, List.length_cons, List.length_nil] at hcc ⊢
          omega
    · rcases h with h | h <;> rw [kaishuu_full_of_ge _ _ (by omega)] at h
      · injection h with h1 h2
        subst h1
        subst h2
        rfl
      · exact absurd h (by simp)

theorem kaishuu_full_iff (hand deck : List Nat) (h5 : hand.length < 5) :
    (∃ h' d', kaishuu hand deck = .full h' d') ↔ 5 < hand.length + deck.length := by
  induction deck generalizing hand with
  | nil =>
    rw [kaishuu_nil, if_pos h5]
    simp only [List.length_nil, Nat.add_zero]
    constructor
    · rintro ⟨h', d', hh⟩
      exact absurd hh (by simp)
    · intro hlt
      omega
  | cons card rest ih =>
    rw [kaishuu_cons, if_pos h5]
    by_cases hr : rest.isEmpty
    · rw [if_pos hr]
      have hrnil : rest = [] := List.isEmpty_iff.mp hr
      subst hrnil
      simp only [List.length_cons, List.length_nil]
      constructor
      · rintro ⟨h', d', hh⟩
        exact absurd hh (by simp)
      · intro hlt
        omega
    · rw [if_neg hr]
      have hrne : rest ≠ [] := fun he => by rw [he] at hr; simp at hr
      have hrlen : 1 ≤ rest.length := by
        cases rest with
        | nil => exact absurd rfl hrne
        | cons a b => simp
      by_cases h5' : (hand ++ [card]).length < 5
      · rw [ih _ h5']
        simp only [List.length_append, List.length_cons, List.length_nil]
        omega
      · rw [kaishuu_full_of_ge _ _ (by omega)]
        simp only [List.length_append, List.length_cons, List.length_nil] at h5'
        simp only [List.length_cons]
        constructor
        · intro _
          omega
        · intro _
          exact ⟨_, _, rfl⟩

/-! ## Plumbing lemmas for the engine state -/

@[simp] theorem opposite_opposite (id : PlayerID) : id.opposite.opposite = id := by
  cases id <;> rfl

theorem opposite_ne (id : PlayerID) : id.opposite ≠ id := by
  cases id <;> simp [PlayerID.opposite]

@[simp] theorem player_set_player_self (g : GameManager) (id : PlayerID) (p : Player) :
    (g.set_player id p).player id = p := by
  cases id <;> rfl

@[simp] theorem player_set_player_opp (g : GameManager) (id : PlayerID) (p : Player) :
    (g.set_player id p).player id.opposite = g.player id.opposite := by
  cases id <;> rfl

@[simp] theorem set_player_board (g : GameManager) (id : PlayerID) (p : Player) :
    (g.set_player id p).board = g.board := by
  cases id <;> rfl

@[simp] theorem set_player_game_end (g : GameManager) (id : PlayerID) (p : Player) :
    (g.set_player id p).game_end = g.game_end := by
  cases id <;> rfl

@[simp] theorem set_player_max_win (g : GameManager) (id : PlayerID) (p : Player) :
    (g.set_player id p).max_win = g.max_win := by
  cases id <;> rfl

@[simp] theorem set_player_first (g : GameManager) (id : PlayerID) (p : Player) :
    (g.set_player id p).first_player = g.first_player := by
  cases id <;> rfl

@[simp] theorem player_set_yamafuda (g : GameManager) (id : PlayerID) (y : List Nat) :
    (g.set_yamafuda y).player id = g.player id := by
  cases id <;> rfl

@[simp] theorem set_yamafuda_yamafuda (g : GameManager) (y : List Nat) :
    (g.set_yamafuda y).board.yamafuda = y := rfl

@[simp] theorem set_yamafuda_p0_pos (g : GameManager) (y : List Nat) :
    (g.set_yamafuda y).board.p0_pos = g.board.p0_pos := rfl

@[simp] theorem set_yamafuda_p1_pos (g : GameManager) (y : List Nat) :
    (g.set_yamafuda y).board.p1_pos = g.board.p1_pos := rfl

@[simp] theorem set_yamafuda_p0_score (g : GameManager) (y : List Nat) :
    (g.set_yamafuda y).board.p0_score = g.board.p0_score := rfl

@[simp] theorem set_yamafuda_p1_score (g : GameManager) (y : List Nat) :
    (g.set_yamafuda y).board.p1_score = g.board.p1_score := rfl

@[simp] theorem set_yamafuda_current (g : GameManager) (y : List Nat) :
    (g.set_yamafuda y).board.current_player = g.board.current_player := rfl

@[simp] theorem set_yamafuda_p0 (g : GameManager) (y : List Nat) :
    (g.set_yamafuda y).p0 = g.p0 := rfl

@[simp] theorem set_yamafuda_p1 (g : GameManager) (y : List Nat) :
    (g.set_yamafuda y).p1 = g.p1 := rfl

@[simp] theorem set_yamafuda_game_end (g : GameManager) (y : List Nat) :
    (g.set_yamafuda y).game_end = g.game_end := rfl

@[simp] theorem set_yamafuda_max_win (g : GameManager) (y : List Nat) :
    (g.set_yamafuda y).max_win = g.max_win := rfl

@[simp] theorem set_current_current (g : GameManager) (id : PlayerID) :
    (g.set_current id).board.current_player = id := rfl

@[simp] theorem player_set_current (g : GameManager) (id pid : PlayerID) :
    (g.set_current id).player pid = g.player pid := by
  cases pid <;> rfl

@[simp] theorem set_current_p0_pos (g : GameManager) (id : PlayerID) :
    (g.set_current id).board.p0_pos = g.board.p0_pos := rfl

@[simp] theorem set_current_p1_pos (g : GameManager) (id : PlayerID) :
    (g.set_current id).board.p1_pos = g.board.p1_pos := rfl

@[simp] theorem set_current_yamafuda (g : GameManager) (id : PlayerID) :
    (g.set_current id).board.yamafuda = g.board.yamafuda := rfl

@[simp] theorem set_current_p0 (g : GameManager) (id : PlayerID) :
    (g.set_current id).p0 = g.p0 := rfl

@[simp] theorem set_current_p1 (g : GameManager) (id : PlayerID) :
    (g.set_current id).p1 = g.p1 := rfl

@[simp] theorem move_player_p0 (g : GameManager) (id : PlayerID) (d : Direction) (c : Nat) :
    (g.move_player id d c).p0 = g.p0 := by
  cases id <;> cases d <;> rfl

@[simp] theorem move_player_p1 (g : GameManager) (id : PlayerID) (d : Direction) (c : Nat) :
    (g.move_player id d c).p1 = g.p1 := by
  cases id <;> cases d <;> rfl

@[simp] theorem move_player_player (g : GameManager) (id pid : PlayerID) (d : Direction)
    (c : Nat) : (g.move_player id d c).player pid = g.player pid := by
  cases id <;> cases d <;> cases pid <;> rfl

@[simp] theorem move_player_yamafuda (g : GameManager) (id : PlayerID) (d : Direction)
    (c : Nat) : (g.move_player id d c).board.yamafuda = g.board.yamafuda := by
  cases id <;> cases d <;> rfl

@[simp] theorem move_player_current (g : GameManager) (id : PlayerID) (d : Direction)
    (c : Nat) : (g.move_player id d c).board.current_player = g.board.current_player := by
  cases id <;> cases d <;> rfl

@[simp] theorem move_player_p0_score (g : GameManager) (id : PlayerID) (d : Direction)
    (c : Nat) : (g.move_player id d c).board.p0_score = g.board.p0_score := by
  cases id <;> cases d <;> rfl

@[simp] theorem move_player_p1_score (g : GameManager) (id : PlayerID) (d : Direction)
    (c : Nat) : (g.move_player id d c).board.p1_score = g.board.p1_score := by
  cases id <;> cases d <;> rfl

@[simp] theorem move_player_game_end (g : GameManager) (id : PlayerID) (d : Direction)
    (c : Nat) : (g.move_player id d c).game_end = g.game_end := by
  cases id <;> cases d <;> rfl

@[simp] theorem move_player_max_win (g : GameManager) (id : PlayerID) (d : Direction)
    (c : Nat) : (g.move_player id d c).max_win = g.max_win := by
  cases id <;> cases d <;> rfl

theorem round_end_tumi_fst (g : GameManager) (id : PlayerID) :
    (g.round_end_tumi id).1 = Kekka.REnd (some id) := rfl

theorem round_end_attack_fst (g : GameManager) (id : PlayerID) :
    (g.round_end_attack id).1 = Kekka.REnd (some id) := rfl

@[simp] theorem round_end_tumi_snd_p0 (g : GameManager) (id : PlayerID) :
    (g.round_end_tumi id).2.p0 = g.p0 := by
  cases id <;> (unfold GameManager.round_end_tumi; simp only [PlayerID.opposite, Board.score]; split <;> rfl)

@[simp] theorem round_end_tumi_snd_p1 (g : GameManager) (id : PlayerID) :
    (g.round_end_tumi id).2.p1 = g.p1 := by
  cases id <;> (unfold GameManager.round_end_tumi; simp only [PlayerID.opposite, Board.score]; split <;> rfl)

@[simp] theorem round_end_tumi_snd_yamafuda (g : GameManager) (id : PlayerID) :
    (g.round_end_tumi id).2.board.yamafuda = g.board.yamafuda := by
  cases id <;> (unfold GameManager.round_end_tumi; simp only [PlayerID.opposite, Board.score]; split <;> rfl)

@[simp] theorem round_end_tumi_snd_p0_pos (g : GameManager) (id : PlayerID) :
    (g.round_end_tumi id).2.board.p0_pos = g.board.p0_pos := by
  cases id <;> (unfold GameManager.round_end_tumi; simp only [PlayerID.opposite, Board.score]; split <;> rfl)

@[simp] theorem round_end_tumi_snd_p1_pos (g : GameManager) (id : PlayerID) :
    (g.round_end_tumi id).2.board.p1_pos = g.board.p1_pos := by
  cases id <;> (unfold GameManager.round_end_tumi; simp only [PlayerID.opposite, Board.score]; split <;> rfl)

@[simp] theorem round_end_tumi_snd_current (g : GameManager) (id : PlayerID) :
    (g.round_end_tumi id).2.board.current_player = g.board.current_player := by
  cases id <;> (unfold GameManager.round_end_tumi; simp only [PlayerID.opposite, Board.score]; split <;> rfl)

theorem round_end_tumi_snd_score (g : GameManager) (id : PlayerID) :
    (g.round_end_tumi id).2.board.score id = g.board.score id + 1 := by
  cases id <;> (unfold GameManager.round_end_tumi; simp only [PlayerID.opposite, Board.score]; split <;> rfl)

theorem round_end_tumi_snd_score_opp (g : GameManager) (id : PlayerID) :
    (g.round_end_tumi id).2.board.score id.opposite = g.board.score id.opposite := by
  cases id <;> (unfold GameManager.round_end_tumi; simp only [PlayerID.opposite, Board.score]; split <;> rfl)

@[simp] theorem round_end_attack_snd_p0 (g : GameManager) (id : PlayerID) :
    (g.round_end_attack id).2.p0 = g.p0 := by
  cases id <;> (unfold GameManager.round_end_attack; simp only [PlayerID.opposite, Board.score]; split <;> rfl)

@[simp] theorem round_end_attack_snd_p1 (g : GameManager) (id : PlayerID) :
    (g.round_end_attack id).2.p1 = g.p1 := by
  cases id <;> (unfold GameManager.round_end_attack; simp only [PlayerID.opposite, Board.score]; split <;> rfl)

@[simp] theorem round_end_attack_snd_yamafuda (g : GameManager) (id : PlayerID) :
    (g.round_end_attack id).2.board.yamafuda = g.board.yamafuda := by
  cases id <;> (unfold GameManager.round_end_attack; simp only [PlayerID.opposite, Board.score]; split <;> rfl)

@[simp] theorem round_end_attack_snd_p0_pos (g : GameManager) (id : PlayerID) :
    (g.round_end_attack id).2.board.p0_pos = g.board.p0_pos := by
  cases id <;> (unfold GameManager.round_end_attack; simp only [PlayerID.opposite, Board.score]; split <;> rfl)

@[simp] theorem round_end_attack_snd_p1_pos (g : GameManager) (id : PlayerID) :
    (g.round_end_attack id).2.board.p1_pos = g.board.p1_pos := by
  cases id <;> (unfold GameManager.round_end_attack; simp only [PlayerID.opposite, Board.score]; split <;> rfl)

@[simp] theorem round_end_attack_snd_current (g : GameManager) (id : PlayerID) :
    (g.round_end_attack id).2.board.current_player = g.board.current_player := by
  cases id <;> (unfold GameManager.round_end_attack; simp only [PlayerID.opposite, Board.score]; split <;> rfl)

theorem round_end_attack_snd_score (g : GameManager) (id : PlayerID) :
    (g.round_end_attack id).2.board.score id = g.board.score id + 1 := by
  cases id <;> (unfold GameManager.round_end_attack; simp only [PlayerID.opposite, Board.score]; split <;> rfl)

theorem round_end_attack_snd_score_opp (g : GameManager) (id : PlayerID) :
    (g.round_end_attack id).2.board.score id.opposite = g.board.score id.opposite := by
  cases id <;> (unfold GameManager.round_end_attack; simp only [PlayerID.opposite, Board.score]; split <;> rfl)

theorem round_end_attack_snd_game_end (g : GameManager) (id : PlayerID) :
    (g.round_end_attack id).2.game_end =
      if g.max_win ≤ g.board.score id + 1 then some id else g.game_end := by
  cases id <;>
    (unfold GameManager.round_end_attack
     simp only [Board.score]
     split <;> rfl)

theorem round_end_yamafuda_fst (g : GameManager) :
    ∃ w, (g.round_end_yamafuda).1 = Kekka.REnd w := by
  unfold GameManager.round_end_yamafuda
  simp only [Board.pos, GameManager.player, Player.count_card]
  repeat' split
  all_goals exact ⟨_, rfl⟩

@[simp] theorem round_end_yamafuda_snd_p0 (g : GameManager) :
    (g.round_end_yamafuda).2.p0 = g.p0 := by
  unfold GameManager.round_end_yamafuda
  simp only [Board.pos, GameManager.player, Player.count_card]
  repeat' split
  all_goals rfl

@[simp] theorem round_end_yamafuda_snd_p1 (g : GameManager) :
    (g.round_end_yamafuda).2.p1 = g.p1 := by
  unfold GameManager.round_end_yamafuda
  simp only [Board.pos, GameManager.player, Player.count_card]
  repeat' split
  all_goals rfl

@[simp] theorem round_end_yamafuda_snd_yamafuda (g : GameManager) :
    (g.round_end_yamafuda).2.board.yamafuda = g.board.yamafuda := by
  unfold GameManager.round_end_yamafuda
  simp only [Board.pos, GameManager.player, Player.count_card]
  repeat' split
  all_goals rfl

@[simp] theorem round_end_yamafuda_snd_p0_pos (g : GameManager) :
    (g.round_end_yamafuda).2.board.p0_pos = g.board.p0_pos := by
  unfold GameManager.round_end_yamafuda
  simp only [Board.pos, GameManager.player, Player.count_card]
  repeat' split
  all_goals rfl

@[simp] theorem round_end_yamafuda_snd_p1_pos (g : GameManager) :
    (g.round_end_yamafuda).2.board.p1_pos = g.board.p1_pos := by
  unfold GameManager.round_end_yamafuda
  simp only [Board.pos, GameManager.player, Player.count_card]
  repeat' split
  all_goals rfl

@[simp] theorem round_end_yamafuda_snd_current (g : GameManager) :
    (g.round_end_yamafuda).2.board.current_player = g.board.current_player := by
  unfold GameManager.round_end_yamafuda
  simp only [Board.pos, GameManager.player, Player.count_card]
  repeat' split
  all_goals rfl

@[simp] theorem round_end_yamafuda_snd_player (g : GameManager) (pid : PlayerID) :
    (g.round_end_yamafuda).2.player pid = g.player pid := by
  cases pid <;> simp [GameManager.player]

@[simp] theorem round_end_tumi_snd_player (g : GameManager) (id pid : PlayerID) :
    ((g.round_end_tumi id).2).player pid = g.player pid := by
  cases pid <;> simp [GameManager.player]

@[simp] theorem round_end_attack_snd_player (g : GameManager) (id pid : PlayerID) :
    ((g.round_end_attack id).2).player pid = g.player pid := by
  cases pid <;> simp [GameManager.player]

theorem totalLen_set_player_hand (g : GameManager) (id : PlayerID) (hand : List Nat) :
    totalLen (g.set_player id { g.player id with hand := hand }) + (g.player id).hand.length
      = totalLen g + hand.length := by
  cases id <;> simp [totalLen, GameManager.set_player, GameManager.player] <;> omega

theorem counts_set_player_hand (g : GameManager) (id : PlayerID) (hand : List Nat) (c : Nat) :
    (g.set_player id { g.player id with hand := hand }).p0.hand.count c +
      (g.set_player id { g.player id with hand := hand }).p1.hand.count c +
      (g.player id).hand.count c
      = g.p0.hand.count c + g.p1.hand.count c + hand.count c := by
  cases id <;> simp [GameManager.set_player, GameManager.player] <;> omega

theorem totalLen_set_yamafuda (g : GameManager) (y : List Nat) :
    totalLen (g.set_yamafuda y) + g.board.yamafuda.length = totalLen g + y.length := by
  simp [totalLen, GameManager.set_yamafuda]
  omega

theorem totalLen_move_player (g : GameManager) (id : PlayerID) (d : Direction) (c : Nat) :
    totalLen (g.move_player id d c) = totalLen g := by
  cases id <;> cases d <;> rfl

theorem totalLen_round_end_tumi (g : GameManager) (id : PlayerID) :
    totalLen (g.round_end_tumi id).2 = totalLen g := by
  unfold totalLen
  rw [round_end_tumi_snd_p0, round_end_tumi_snd_p1, round_end_tumi_snd_yamafuda]

theorem totalLen_round_end_attack (g : GameManager) (id : PlayerID) :
    totalLen (g.round_end_attack id).2 = totalLen g := by
  unfold totalLen
  rw [round_end_attack_snd_p0, round_end_attack_snd_p1, round_end_attack_snd_yamafuda]

theorem totalLen_round_end_yamafuda (g : GameManager) :
    totalLen (g.round_end_yamafuda).2 = totalLen g := by
  unfold totalLen
  rw [round_end_yamafuda_snd_p0, round_end_yamafuda_snd_p1, round_end_yamafuda_snd_yamafuda]

theorem set_player_hand_ids (g : GameManager) (id : PlayerID) (hand : List Nat) :
    (g.set_player id { g.player id with hand := hand }).p0.id = g.p0.id ∧
    (g.set_player id { g.player id with hand := hand }).p1.id = g.p1.id := by
  cases id <;> simp [GameManager.set_player, GameManager.player]

theorem player_hand_by_id (g : GameManager) (pid : PlayerID) :
    (g.player pid).hand = (match pid with | .zero => g.p0.hand | .one => g.p1.hand) := by
  cases pid <;> rfl

/-! ## Inversion of the two engine operations -/

/-- Inversion of a successful `play_movement`: the card was held, the move was
legal, and the outcome came from the stalemate branch, the replenished
*Continue* branch, or the deck-exhaustion branch. -/
theorem play_movement_ok_inv (g : GameManager) (id : PlayerID) (m : PlayMovement)
    (k : Kekka) (g' : GameManager)
    (h : g.play_movement id m = (.ok k, g')) :
    ∃ index, (g.player id).card_pos m.play_card = some index ∧
      (g.player id).can_move g.board m.play_card m.direction = true ∧
      ∀ g1, g1 = (g.set_player id ((g.player id).remove_card index)).move_player id
          m.direction m.play_card →
        (((g1.player id.opposite).can_actions g1.board = false ∧
            k = Kekka.REnd (some id) ∧ g' = (g1.round_end_tumi id).2) ∨
         ((g1.player id.opposite).can_actions g1.board = true ∧
           ((∃ hand yamafuda,
              kaishuu (g1.player id).hand g1.board.yamafuda = .full hand yamafuda ∧
              k = Kekka.Continue ∧
              g' = (g1.set_player id { g1.player id with hand := hand }).set_yamafuda yamafuda) ∨
            (∃ hand yamafuda,
              kaishuu (g1.player id).hand g1.board.yamafuda = .tiebreak hand yamafuda ∧
              k = (((g1.set_player id { g1.player id with hand := hand }).set_yamafuda
                  yamafuda).round_end_yamafuda).1 ∧
              g' = (((g1.set_player id { g1.player id with hand := hand }).set_yamafuda
                  yamafuda).round_end_yamafuda).2)))) := by
  unfold GameManager.play_movement at h
  split at h
  · exact absurd h (by simp)
  · rename_i index hpos
    split at h
    · rename_i hcm
      refine ⟨index, hpos, hcm, ?_⟩
      intro g1 hg1
      rw [← hg1] at h
      by_cases hca : (g1.player id.opposite).can_actions g1.board
      · rw [if_neg (by simp [hca])] at h
        cases hk : kaishuu (g1.player id).hand g1.board.yamafuda with
        | full hand yamafuda =>
          rw [hk] at h
          simp only [Prod.mk.injEq, Except.ok.injEq] at h
          exact Or.inr ⟨hca, Or.inl ⟨hand, yamafuda, rfl, h.1.symm, h.2.symm⟩⟩
        | tiebreak hand yamafuda =>
          rw [hk] at h
          simp only [Prod.mk.injEq, Except.ok.injEq] at h
          exact Or.inr ⟨hca, Or.inr ⟨hand, yamafuda, rfl, h.1.symm, h.2.symm⟩⟩
      · have hcaf : (g1.player id.opposite).can_actions g1.board = false := by
          revert hca
          cases (g1.player id.opposite).can_actions g1.board <;> simp
        rw [if_pos (by simp [hcaf])] at h
        simp only [Prod.mk.injEq, Except.ok.injEq] at h
        refine Or.inl ⟨hcaf, ?_, h.2.symm⟩
        rw [← h.1, round_end_tumi_fst]
    · exact absurd h (by simp)

/-- Inversion of a successful `play_attack`: the guard held and either the
full-defense branch ran or the defense failed and the round ended at once. -/
theorem play_attack_ok_inv (g : GameManager) (id : PlayerID) (a : PlayAttack)
    (k : Kekka) (g' : GameManager)
    (h : g.play_attack id a = (.ok k, g')) :
    a.num_of_card ≤ ((g.player id).card_positions a.play_card).length ∧
    (g.player id).can_attack g.board a.play_card = true ∧
    ((((g.player id).card_positions a.play_card).length ≤
        ((g.player id.opposite).card_positions a.play_card).length ∧
       g.attack_full_defense id a.play_card = (.ok k, g')) ∨
     (((g.player id.opposite).card_positions a.play_card).length <
        ((g.player id).card_positions a.play_card).length ∧
       k = Kekka.REnd (some id) ∧ g' = (g.round_end_attack id).2)) := by
  have hstep : g.play_attack id a =
      (if a.num_of_card ≤ ((g.player id).card_positions a.play_card).length ∧
          (g.player id).can_attack g.board a.play_card = true then
        if ((g.player id).card_positions a.play_card).length ≤
            ((g.player id.opposite).card_positions a.play_card).length then
          g.attack_full_defense id a.play_card
        else (.ok (g.round_end_attack id).1, (g.round_end_attack id).2)
      else (.error "攻撃はとどかないか、そんなに枚数持っていません！", g)) := rfl
  rw [hstep] at h
  split at h
  · rename_i hguard
    refine ⟨hguard.1, hguard.2, ?_⟩
    split at h
    · rename_i hdef
      exact Or.inl ⟨hdef, h⟩
    · rename_i hdef
      simp only [Prod.mk.injEq, Except.ok.injEq] at h
      refine Or.inr ⟨by omega, ?_, h.2.symm⟩
      rw [← h.1, round_end_attack_fst]
  · exact absurd h (by simp)

/-- Inversion of the full-defense branch of `play_attack`. -/
theorem attack_full_defense_inv (g : GameManager) (id : PlayerID) (card : Nat)
    (k : Kekka) (g' : GameManager)
    (h : g.attack_full_defense id card = (.ok k, g')) :
    ∀ g1, g1 = g.set_player id.opposite { g.player id.opposite with
        hand := removeIdxs (g.player id.opposite).hand
          (((g.player id.opposite).card_positions card).reverse.take
            ((g.player id).card_positions card).length) } →
    ∀ g2, g2 = g1.set_player id { g1.player id with
        hand := removeIdxs (g1.player id).hand ((g.player id).card_positions card).reverse } →
        (((g2.player id.opposite).can_actions g2.board = false ∧
            k = Kekka.REnd (some id) ∧ g' = g2) ∨
         ((g2.player id.opposite).can_actions g2.board = true ∧
           ((∃ hand yamafuda,
              kaishuu (g2.player id).hand g2.board.yamafuda = .full hand yamafuda ∧
              k = Kekka.Continue ∧
              g' = (g2.set_player id { g2.player id with hand := hand }).set_yamafuda yamafuda) ∨
            (∃ hand yamafuda,
              kaishuu (g2.player id).hand g2.board.yamafuda = .tiebreak hand yamafuda ∧
              k = (((g2.set_player id { g2.player id with hand := hand }).set_yamafuda
                  yamafuda).round_end_yamafuda).1 ∧
              g' = (((g2.set_player id { g2.player id with hand := hand }).set_yamafuda
                  yamafuda).round_end_yamafuda).2)))) := by
  intro g1 hg1 g2 hg2
  have hstep : g.attack_full_defense id card =
      (if (!(g2.player id.opposite).can_actions g2.board) = true then
        (Except.ok (Kekka.REnd (some id)), g2)
      else
        match kaishuu (g2.player id).hand g2.board.yamafuda with
        | .full hand yamafuda =>
          (.ok Kekka.Continue,
            (g2.set_player id { g2.player id with hand := hand }).set_yamafuda yamafuda)
        | .tiebreak hand yamafuda =>
          (.ok (((g2.set_player id { g2.player id with hand := hand }).set_yamafuda
              yamafuda).round_end_yamafuda).1,
            (((g2.set_player id { g2.player id with hand := hand }).set_yamafuda
              yamafuda).round_end_yamafuda).2)) := by
    subst hg2
    subst hg1
    rfl
  rw [hstep] at h
  by_cases hca : (g2.player id.opposite).can_actions g2.board
  · rw [if_neg (by simp [hca])] at h
    cases hk : kaishuu (g2.player id).hand g2.board.yamafuda with
    | full hand yamafuda =>
      rw [hk] at h
      simp only [Prod.mk.injEq, Except.ok.injEq] at h
      exact Or.inr ⟨hca, Or.inl ⟨hand, yamafuda, rfl, h.1.symm, h.2.symm⟩⟩
    | tiebreak hand yamafuda =>
      rw [hk] at h
      simp only [Prod.mk.injEq, Except.ok.injEq] at h
      exact Or.inr ⟨hca, Or.inr ⟨hand, yamafuda, rfl, h.1.symm, h.2.symm⟩⟩
  · have hcaf : (g2.player id.opposite).can_actions g2.board = false := by
      revert hca
      cases (g2.player id.opposite).can_actions g2.board <;> simp
    rw [if_pos (by simp [hcaf])] at h
    simp only [Prod.mk.injEq, Except.ok.injEq] at h
    exact Or.inl ⟨hcaf, h.1.symm, h.2.symm⟩

/-! ## The reachable-state invariant -/

theorem player_id_of_ids (g : GameManager) (pid : PlayerID)
    (h0 : g.p0.id = .zero) (h1 : g.p1.id = .one) : (g.player pid).id = pid := by
  cases pid <;> assumption

theorem can_move_eq_of_id (p q : Player) (b : Board) (c : Nat) (d : Direction)
    (h : p.id = q.id) : p.can_move b c d = q.can_move b c d := by
  unfold Player.can_move
  rw [h]

theorem player_opp_count (g : GameManager) (id : PlayerID) (c : Nat) :
    (g.player id).hand.count c + (g.player id.opposite).hand.count c =
      g.p0.hand.count c + g.p1.hand.count c := by
  cases id <;> simp [GameManager.player, PlayerID.opposite] <;> omega

theorem player_opp_length (g : GameManager) (id : PlayerID) :
    (g.player id).hand.length + (g.player id.opposite).hand.length =
      g.p0.hand.length + g.p1.hand.length := by
  cases id <;> simp [GameManager.player, PlayerID.opposite] <;> omega

theorem move_player_pos_bounds (g : GameManager) (pid : PlayerID) (d : Direction) (c : Nat)
    (hid : (g.player pid).id = pid)
    (hcm : (g.player pid).can_move g.board c d = true)
    (hp1 : 1 ≤ g.board.p0_pos) (hp2 : g.board.p0_pos < g.board.p1_pos)
    (hp3 : g.board.p1_pos ≤ 23) :
    1 ≤ (g.move_player pid d c).board.p0_pos ∧
    (g.move_player pid d c).board.p0_pos < (g.move_player pid d c).board.p1_pos ∧
    (g.move_player pid d c).board.p1_pos ≤ 23 := by
  cases pid <;> cases d <;>
    (unfold Player.can_move at hcm
     rw [hid] at hcm
     simp only [Board.pos, PlayerID.opposite, MOST_LEFT_SIDE, MOST_RIGHT_SIDE,
       decide_eq_true_eq] at hcm
     simp only [GameManager.move_player]
     omega)

theorem validInitialDeck_count_le (d : List Nat) (hd : validInitialDeck d) (c : Nat) :
    d.count c ≤ 5 := by
  by_cases hm : c ∈ d
  · have hb := hd.2.2 c hm
    have hc : c = 1 ∨ c = 2 ∨ c = 3 ∨ c = 4 ∨ c = 5 := by omega
    have h5 := hd.2.1 c (by rcases hc with h | h | h | h | h <;> subst h <;> simp)
    omega
  · rw [List.count_eq_zero.2 hm]
    omega

theorem count_take_drop (d : List Nat) (c : Nat) :
    (d.take 5).count c + ((d.drop 5).take 5).count c + (d.drop 10).count c = d.count c := by
  have h3 : (d.drop 5).drop 5 = d.drop 10 := by rw [List.drop_drop]
  conv_rhs => rw [← List.take_append_drop 5 d]
  rw [List.count_append]
  conv_rhs => rw [← List.take_append_drop 5 (d.drop 5)]
  rw [List.count_append, h3]
  omega

theorem inv_new (d : List Nat) (mw : Nat) (hd : validInitialDeck d) :
    Inv (GameManager.new d mw) := by
  have hlen := hd.1
  refine ⟨rfl, rfl, ?_, ?_, ?_, ?_, ?_, ?_, ?_, ?_⟩
  · simp [GameManager.new, MOST_LEFT_SIDE]
  · simp [GameManager.new, MOST_LEFT_SIDE, MOST_RIGHT_SIDE]
  · simp [GameManager.new, MOST_RIGHT_SIDE]
  · simp [GameManager.new, GameManager.player, List.length_take, hlen]
  · simp [GameManager.new, GameManager.player, List.length_take, hlen]
  · simp [GameManager.new, GameManager.player, PlayerID.opposite, List.length_take,
      List.length_drop, hlen]
  · intro c
    have h1 := count_take_drop d c
    have h2 := validInitialDeck_count_le d hd c
    simp only [GameManager.new]
    omega
  · simp [totalLen, GameManager.new, List.length_take, List.length_drop, hlen]

theorem inv_reset (g : GameManager) (d : List Nat) (hd : validInitialDeck d)
    (h0 : g.p0.id = .zero) (h1 : g.p1.id = .one) :
    Inv ((g.reset_round d).change_first_player) := by
  have hlen := hd.1
  refine ⟨?_, ?_, ?_, ?_, ?_, ?_, ?_, ?_, ?_, ?_⟩
  · simpa [GameManager.reset_round, GameManager.change_first_player] using h0
  · simpa [GameManager.reset_round, GameManager.change_first_player] using h1
  · simp [GameManager.reset_round, GameManager.change_first_player, MOST_LEFT_SIDE]
  · simp [GameManager.reset_round, GameManager.change_first_player, MOST_LEFT_SIDE,
      MOST_RIGHT_SIDE]
  · simp [GameManager.reset_round, GameManager.change_first_player, MOST_RIGHT_SIDE]
  · cases hfp : g.first_player <;>
      simp [GameManager.reset_round, GameManager.change_first_player, GameManager.player,
        PlayerID.opposite, hfp, List.length_take, List.length_drop, hlen]
  · cases hfp : g.first_player <;>
      simp [GameManager.reset_round, GameManager.change_first_player, GameManager.player,
        PlayerID.opposite, hfp, List.length_take, List.length_drop, hlen]
  · cases hfp : g.first_player <;>
      simp [GameManager.reset_round, GameManager.change_first_player, GameManager.player,
        PlayerID.opposite, hfp, List.length_take, List.length_drop, hlen]
  · intro c
    have hcd := count_take_drop d c
    have hle := validInitialDeck_count_le d hd c
    simp only [GameManager.reset_round, GameManager.change_first_player]
    omega
  · simp [totalLen, GameManager.reset_round, GameManager.change_first_player,
      List.length_take, List.length_drop, hlen]

theorem totalLen_set_current (g : GameManager) (id : PlayerID) :
    totalLen (g.set_current id) = totalLen g := rfl

theorem inv_move_continue (g g' : GameManager) (m : PlayMovement) (hinv : Inv g)
    (h : g.play_movement g.board.current_player m = (.ok Kekka.Continue, g')) :
    Inv (g'.set_current g'.board.current_player.opposite) := by
  obtain ⟨hid0, hid1, hp1, hp2, hp3, hl3, hl5, hlopp, hcounts, htot⟩ := hinv
  obtain ⟨index, hpos, hcm, hrest⟩ := play_movement_ok_inv g g.board.current_player m _ _ h
  set id := g.board.current_player with hidd
  obtain ⟨herase, hmem⟩ := card_pos_some_erase _ _ _ hpos
  have hrc : (g.player id).remove_card index =
      { g.player id with hand := (g.player id).hand.erase m.play_card } := by
    unfold Player.remove_card
    rw [herase]
  set S := g.set_player id ((g.player id).remove_card index) with hS
  set g1 := S.move_player id m.direction m.play_card with hg1
  have hcase := hrest g1 (by rw [hg1, hS])
  rcases hcase with ⟨_, hk, _⟩ | ⟨hca, hrest2⟩
  · exact absurd hk (by simp)
  rcases hrest2 with ⟨hand, yam, hk, _, hg'⟩ | ⟨hand, yam, hk, hkek, _⟩
  swap
  · obtain ⟨w, hw⟩ := round_end_yamafuda_fst
      ((g1.set_player id { g1.player id with hand := hand }).set_yamafuda yam)
    rw [hw] at hkek
    exact absurd hkek (by simp)
  -- facts about the intermediate state g1
  have hplayer1 : g1.player id = { g.player id with
      hand := (g.player id).hand.erase m.play_card } := by
    rw [hg1, hS, hrc]
    simp
  have hopp1 : g1.player id.opposite = g.player id.opposite := by
    rw [hg1, hS]
    simp
  have hyam1 : g1.board.yamafuda = g.board.yamafuda := by
    rw [hg1, hS]
    simp
  have hcur1 : g1.board.current_player = id := by
    rw [hg1, hS]
    simp [← hidd]
  have hids1 : g1.p0.id = .zero ∧ g1.p1.id = .one := by
    rw [hg1, hS, hrc]
    have hsp := set_player_hand_ids g id ((g.player id).hand.erase m.play_card)
    simp only [move_player_p0, move_player_p1]
    exact ⟨hsp.1.trans hid0, hsp.2.trans hid1⟩
  have hElen : ((g.player id).hand.erase m.play_card).length + 1 =
      (g.player id).hand.length := by
    have := List.length_erase_of_mem hmem
    omega
  have hkE : kaishuu ((g.player id).hand.erase m.play_card) g.board.yamafuda =
      .full hand yam := by
    rw [← hyam1]
    have hh : (g1.player id).hand = (g.player id).hand.erase m.play_card := by
      rw [hplayer1]
    rw [← hh]
    exact hk
  have hand5 : hand.length = 5 :=
    (kaishuu_full_of_lt _ _ _ _ (by omega) hkE).1
  have hkcnt := kaishuu_count _ _ _ _ (Or.inl hkE)
  have hklen := kaishuu_length _ _ _ _ (Or.inl hkE)
  -- facts about the final state
  have hg'p : g'.player id = { g1.player id with hand := hand } := by
    rw [hg']
    simp
  have hg'opp : g'.player id.opposite = g.player id.opposite := by
    rw [hg']
    simp [hopp1]
  have hg'cur : g'.board.current_player = id := by
    rw [hg']
    simp [hcur1]
  have hg'yam : g'.board.yamafuda = yam := by
    rw [hg']
    simp
  have hg'pos : g'.board.p0_pos = g1.board.p0_pos ∧ g'.board.p1_pos = g1.board.p1_pos := by
    rw [hg']
    simp
  have hSid : (S.player id).id = id := by
    rw [hS, hrc]
    simp only [player_set_player_self]
    exact player_id_of_ids g id hid0 hid1
  have hScm : (S.player id).can_move S.board m.play_card m.direction = true := by
    rw [can_move_eq_of_id (S.player id) (g.player id) S.board m.play_card m.direction
      (by rw [hSid, player_id_of_ids g id hid0 hid1])]
    rw [hS]
    simp only [set_player_board]
    exact hcm
  have hbounds := move_player_pos_bounds S id m.direction m.play_card hSid hScm
    (by rw [hS]; simpa using hp1) (by rw [hS]; simpa using hp2) (by rw [hS]; simpa using hp3)
  rw [← hg1] at hbounds
  -- assemble the invariant for the next turn state
  refine ⟨?_, ?_, ?_, ?_, ?_, ?_, ?_, ?_, ?_, ?_⟩
  · rw [hg']
    simpa using (set_player_hand_ids g1 id hand).1.trans hids1.1
  · rw [hg']
    simpa using (set_player_hand_ids g1 id hand).2.trans hids1.2
  · simpa [hg'pos.1] using hbounds.1
  · simpa [hg'pos.1, hg'pos.2] using hbounds.2.1
  · simpa [hg'pos.2] using hbounds.2.2
  · simp only [set_current_current, player_set_current, hg'cur, hg'opp]
    omega
  · simp only [set_current_current, player_set_current, hg'cur, hg'opp]
    omega
  · simp only [set_current_current, player_set_current, hg'cur, opposite_opposite, hg'p]
    exact hand5
  · intro c
    simp only [set_current_current, set_current_p0, set_current_p1, set_current_yamafuda]
    rw [hg'yam]
    have hpg' : g'.p0.hand.count c + g'.p1.hand.count c =
        (g1.set_player id { g1.player id with hand := hand }).p0.hand.count c +
        (g1.set_player id { g1.player id with hand := hand }).p1.hand.count c := by
      rw [hg']
      simp
    have h2 := counts_set_player_hand g1 id hand c
    have hply : (g1.player id).hand.count c =
        ((g.player id).hand.erase m.play_card).count c := by
      rw [hplayer1]
    have hg1p0c : g1.p0.hand.count c = S.p0.hand.count c := by
      rw [hg1]
      simp
    have hg1p1c : g1.p1.hand.count c = S.p1.hand.count c := by
      rw [hg1]
      simp
    have h1' : S.p0.hand.count c + S.p1.hand.count c + (g.player id).hand.count c =
        g.p0.hand.count c + g.p1.hand.count c +
        ((g.player id).hand.erase m.play_card).count c := by
      rw [hS, hrc]
      exact counts_set_player_hand g id ((g.player id).hand.erase m.play_card) c
    have h3 := hkcnt c
    have h4 := hcounts c
    have h5 : ((g.player id).hand.erase m.play_card).count c ≤ (g.player id).hand.count c := by
      by_cases hcc : c = m.play_card
      · subst hcc
        rw [List.count_erase_self]
        omega
      · rw [List.count_erase_of_ne hcc]
    have hg'0 := hpg'
    omega
  · rw [totalLen_set_current]
    have he1 : (g1.set_player id { g1.player id with hand := hand }).board.yamafuda.length =
        g.board.yamafuda.length := by
      simp [hyam1]
    have he2 : (g1.player id).hand.length =
        ((g.player id).hand.erase m.play_card).length := by
      rw [hplayer1]
    have h1' : totalLen S + (g.player id).hand.length =
        totalLen g + ((g.player id).hand.erase m.play_card).length := by
      rw [hS, hrc]
      exact totalLen_set_player_hand g id ((g.player id).hand.erase m.play_card)
    have h2' := totalLen_set_player_hand g1 id hand
    have h3' : totalLen g1 = totalLen S := by
      rw [hg1, totalLen_move_player]
    have h4' := totalLen_set_yamafuda (g1.set_player id { g1.player id with hand := hand }) yam
    have h5' : totalLen g' =
        totalLen ((g1.set_player id { g1.player id with hand := hand }).set_yamafuda yam) := by
      rw [hg']
    omega

@[simp] theorem player_set_player_opp2 (g : GameManager) (id : PlayerID) (p : Player) :
    (g.set_player id.opposite p).player id = g.player id := by
  cases id <;> rfl

theorem card_positions_eq (p : Player) (c : Nat) :
    p.card_positions c = positionsOf p.hand c := rfl

theorem inv_attack_continue (g g' : GameManager) (a : PlayAttack) (hinv : Inv g)
    (h : g.play_attack g.board.current_player a = (.ok Kekka.Continue, g')) :
    Inv (g'.set_current g'.board.current_player.opposite) := by
  obtain ⟨hid0, hid1, hp1, hp2, hp3, hl3, hl5, hlopp, hcounts, htot⟩ := hinv
  obtain ⟨hnum, hatk, hbranch⟩ := play_attack_ok_inv g g.board.current_player a _ _ h
  set id := g.board.current_player with hidd
  rcases hbranch with ⟨hdef, hfd⟩ | ⟨_, hk, _⟩
  swap
  · exact absurd hk (by simp)
  set k := ((g.player id).card_positions a.play_card).length with hkdef
  set g1 := g.set_player id.opposite { g.player id.opposite with
      hand := removeIdxs (g.player id.opposite).hand
        (((g.player id.opposite).card_positions a.play_card).reverse.take k) } with hg1
  set g2 := g1.set_player id { g1.player id with
      hand := removeIdxs (g1.player id).hand
        ((g.player id).card_positions a.play_card).reverse } with hg2
  have hcase := attack_full_defense_inv g id a.play_card _ _ hfd g1 (by rw [hg1, hkdef]) g2
    (by rw [hg2])
  rcases hcase with ⟨_, hkk, _⟩ | ⟨hca, hrest2⟩
  · exact absurd hkk (by simp)
  rcases hrest2 with ⟨hand, yam, hk, _, hg'⟩ | ⟨hand, yam, hk, hkek, _⟩
  swap
  · obtain ⟨w, hw⟩ := round_end_yamafuda_fst
      ((g2.set_player id { g2.player id with hand := hand }).set_yamafuda yam)
    rw [hw] at hkek
    exact absurd hkek (by simp)
  -- counting facts about the attack
  have hHpl : ((g.player id).card_positions a.play_card).length =
      (g.player id).hand.count a.play_card := positionsOf_length _ _
  have hDpl : ((g.player id.opposite).card_positions a.play_card).length =
      (g.player id.opposite).hand.count a.play_card := positionsOf_length _ _
  have hkH : k = (g.player id).hand.count a.play_card := by rw [hkdef, hHpl]
  have hkD : k ≤ (g.player id.opposite).hand.count a.play_card := by
    rw [← hDpl]
    exact hdef
  have hk2 : k ≤ 2 := by
    have h1 := hcounts a.play_card
    have h2 := player_opp_count g id a.play_card
    omega
  -- the two removals
  have hDrem := removeIdxs_positions_take (g.player id.opposite).hand a.play_card k hkD
  have hg1pid : g1.player id = g.player id := by
    rw [hg1]
    simp
  have hg1opp : g1.player id.opposite = { g.player id.opposite with
      hand := removeIdxs (g.player id.opposite).hand
        (((g.player id.opposite).card_positions a.play_card).reverse.take k) } := by
    rw [hg1]
    simp
  have hArem : removeIdxs (g1.player id).hand
      ((g.player id).card_positions a.play_card).reverse =
      (g.player id).hand.filter (fun x => !(x == a.play_card)) := by
    rw [hg1pid, card_positions_eq]
    exact removeIdxs_positions_reverse _ _
  have hg2pid : g2.player id = { g1.player id with
      hand := removeIdxs (g1.player id).hand
        ((g.player id).card_positions a.play_card).reverse } := by
    rw [hg2]
    simp
  have hg2opp : g2.player id.opposite = g1.player id.opposite := by
    rw [hg2]
    simp
  have hg2board : g2.board = g.board := by
    rw [hg2, hg1]
    simp
  have hids2 : g2.p0.id = .zero ∧ g2.p1.id = .one := by
    rw [hg2, hg1]
    have hsp1 := set_player_hand_ids g id.opposite
      (removeIdxs (g.player id.opposite).hand
        (((g.player id.opposite).card_positions a.play_card).reverse.take k))
    have hsp2 := set_player_hand_ids (g.set_player id.opposite { g.player id.opposite with
        hand := removeIdxs (g.player id.opposite).hand
          (((g.player id.opposite).card_positions a.play_card).reverse.take k) }) id
      (removeIdxs ((g.set_player id.opposite { g.player id.opposite with
        hand := removeIdxs (g.player id.opposite).hand
          (((g.player id.opposite).card_positions a.play_card).reverse.take k) }).player id).hand
        ((g.player id).card_positions a.play_card).reverse)
    exact ⟨hsp2.1.trans hsp1.1 |>.trans hid0, hsp2.2.trans hsp1.2 |>.trans hid1⟩
  -- the attacker hand after removal
  have hAlen : ((g.player id).hand.filter (fun x => !(x == a.play_card))).length + k =
      (g.player id).hand.length := by
    have := filter_ne_length (g.player id).hand a.play_card
    omega
  have hg2pidhand : (g2.player id).hand =
      (g.player id).hand.filter (fun x => !(x == a.play_card)) := by
    rw [hg2pid]
    simpa using hArem
  have hg2yam : g2.board.yamafuda = g.board.yamafuda := by rw [hg2board]
  have hkF : kaishuu ((g.player id).hand.filter (fun x => !(x == a.play_card)))
      g.board.yamafuda = .full hand yam := by
    rw [← hg2pidhand, ← hg2yam]
    exact hk
  have hand5 : hand.length = 5 := by
    by_cases hfl : ((g.player id).hand.filter (fun x => !(x == a.play_card))).length < 5
    · exact (kaishuu_full_of_lt _ _ _ _ hfl hkF).1
    · rw [kaishuu_full_of_ge _ _ (by omega)] at hkF
      injection hkF with e1 e2
      have hle := congrArg List.length e1
      omega
  have hkcnt := kaishuu_count _ _ _ _ (Or.inl hkF)
  have hklen := kaishuu_length _ _ _ _ (Or.inl hkF)
  -- facts about the final state
  have hg'p : g'.player id = { g2.player id with hand := hand } := by
    rw [hg']
    simp
  have hg'opp : g'.player id.opposite = g2.player id.opposite := by
    rw [hg']
    simp
  have hg'cur : g'.board.current_player = id := by
    rw [hg']
    simp [hg2board, ← hidd]
  have hg'yam : g'.board.yamafuda = yam := by
    rw [hg']
    simp
  have hg'pos : g'.board.p0_pos = g.board.p0_pos ∧ g'.board.p1_pos = g.board.p1_pos := by
    rw [hg']
    simp [hg2board]
  have hopplen : (g1.player id.opposite).hand.length + k =
      (g.player id.opposite).hand.length := by
    rw [hg1opp]
    simpa [card_positions_eq] using hDrem.1
  refine ⟨?_, ?_, ?_, ?_, ?_, ?_, ?_, ?_, ?_, ?_⟩
  · rw [hg']
    simpa using (set_player_hand_ids g2 id hand).1.trans hids2.1
  · rw [hg']
    simpa using (set_player_hand_ids g2 id hand).2.trans hids2.2
  · simpa [hg'pos.1] using hp1
  · simpa [hg'pos.1, hg'pos.2] using hp2
  · simpa [hg'pos.2] using hp3
  · simp only [set_current_current, player_set_current, hg'cur, hg'opp, hg2opp]
    omega
  · simp only [set_current_current, player_set_current, hg'cur, hg'opp, hg2opp]
    omega
  · simp only [set_current_current, player_set_current, hg'cur, opposite_opposite, hg'p]
    exact hand5
  · intro c
    simp only [set_current_current, set_current_p0, set_current_p1, set_current_yamafuda]
    rw [hg'yam]
    have hpg' : g'.p0.hand.count c + g'.p1.hand.count c =
        (g2.set_player id { g2.player id with hand := hand }).p0.hand.count c +
        (g2.set_player id { g2.player id with hand := hand }).p1.hand.count c := by
      rw [hg']
      simp
    have h2 := counts_set_player_hand g2 id hand c
    have h1 : g2.p0.hand.count c + g2.p1.hand.count c + (g1.player id).hand.count c =
        g1.p0.hand.count c + g1.p1.hand.count c +
        (removeIdxs (g1.player id).hand
          ((g.player id).card_positions a.play_card).reverse).count c := by
      rw [hg2]
      exact counts_set_player_hand g1 id _ c
    have h0 : g1.p0.hand.count c + g1.p1.hand.count c +
        (g.player id.opposite).hand.count c =
        g.p0.hand.count c + g.p1.hand.count c +
        (removeIdxs (g.player id.opposite).hand
          (((g.player id.opposite).card_positions a.play_card).reverse.take k)).count c := by
      rw [hg1]
      exact counts_set_player_hand g id.opposite _ c
    have hDcnt : (removeIdxs (g.player id.opposite).hand
        (((g.player id.opposite).card_positions a.play_card).reverse.take k)).count c +
        (if c = a.play_card then k else 0) = (g.player id.opposite).hand.count c := by
      have := hDrem.2 c
      simpa [card_positions_eq] using this
    have hAcnt : (removeIdxs (g1.player id).hand
        ((g.player id).card_positions a.play_card).reverse).count c =
        if c = a.play_card then 0 else (g.player id).hand.count c := by
      rw [hArem]
      exact filter_ne_count _ _ _
    have hply1 : (g1.player id).hand.count c = (g.player id).hand.count c := by
      rw [hg1pid]
    have h3 := hkcnt c
    have hg2c : (g2.player id).hand.count c =
        ((g.player id).hand.filter (fun x => !(x == a.play_card))).count c := by
      rw [hg2pidhand]
    have hfiltc : ((g.player id).hand.filter (fun x => !(x == a.play_card))).count c =
        if c = a.play_card then 0 else (g.player id).hand.count c := filter_ne_count _ _ _
    have h4 := hcounts c
    have h5 := player_opp_count g id c
    by_cases hcc : c = a.play_card
    · rw [if_pos hcc] at hDcnt hAcnt hfiltc
      omega
    · rw [if_neg hcc] at hDcnt hAcnt hfiltc
      omega
  · rw [totalLen_set_current]
    have he1 : (g2.set_player id { g2.player id with hand := hand }).board.yamafuda.length =
        g.board.yamafuda.length := by
      simp [hg2yam]
    have h2' := totalLen_set_player_hand g2 id hand
    have h1' : totalLen g2 + (g1.player id).hand.length =
        totalLen g1 + (removeIdxs (g1.player id).hand
          ((g.player id).card_positions a.play_card).reverse).length := by
      rw [hg2]
      exact totalLen_set_player_hand g1 id _
    have h0' : totalLen g1 + (g.player id.opposite).hand.length =
        totalLen g + (removeIdxs (g.player id.opposite).hand
          (((g.player id.opposite).card_positions a.play_card).reverse.take k)).length := by
      rw [hg1]
      exact totalLen_set_player_hand g id.opposite _
    have hDlen : (removeIdxs (g.player id.opposite).hand
        (((g.player id.opposite).card_positions a.play_card).reverse.take k)).length + k =
        (g.player id.opposite).hand.length := by
      simpa [card_positions_eq] using hDrem.1
    have hAlen2 : (removeIdxs (g1.player id).hand
        ((g.player id).card_positions a.play_card).reverse).length + k =
        (g.player id).hand.length := by
      rw [hArem]
      exact hAlen
    have hply1 : (g1.player id).hand.length = (g.player id).hand.length := by
      rw [hg1pid]
    have hg2len : (g2.player id).hand.length =
        ((g.player id).hand.filter (fun x => !(x == a.play_card))).length := by
      rw [hg2pidhand]
    have h4' := totalLen_set_yamafuda (g2.set_player id { g2.player id with hand := hand }) yam
    have h5' : totalLen g' =
        totalLen ((g2.set_player id { g2.player id with hand := hand }).set_yamafuda yam) := by
      rw [hg']
    omega

theorem play_movement_ids (g g' : GameManager) (pid : PlayerID) (m : PlayMovement) (k : Kekka)
    (h : g.play_movement pid m = (.ok k, g')) :
    g'.p0.id = g.p0.id ∧ g'.p1.id = g.p1.id := by
  obtain ⟨index, hpos, hcm, hrest⟩ := play_movement_ok_inv g pid m _ _ h
  set S := g.set_player pid ((g.player pid).remove_card index) with hS
  set g1 := S.move_player pid m.direction m.play_card with hg1
  have hids1 : g1.p0.id = g.p0.id ∧ g1.p1.id = g.p1.id := by
    rw [hg1, hS]
    have hrc : (g.player pid).remove_card index =
        { g.player pid with hand := (g.player pid).hand.eraseIdx index } := rfl
    rw [hrc]
    have hsp := set_player_hand_ids g pid ((g.player pid).hand.eraseIdx index)
    simp only [move_player_p0, move_player_p1]
    exact hsp
  have hcase := hrest g1 (by rw [hg1, hS])
  rcases hcase with ⟨_, _, hg'⟩ | ⟨_, hrest2⟩
  · rw [hg']
    simpa using hids1
  rcases hrest2 with ⟨hand, yam, _, _, hg'⟩ | ⟨hand, yam, _, _, hg'⟩
  · rw [hg']
    have hsp := set_player_hand_ids g1 pid hand
    simpa using ⟨hsp.1.trans hids1.1, hsp.2.trans hids1.2⟩
  · rw [hg']
    have hsp := set_player_hand_ids g1 pid hand
    simpa using ⟨hsp.1.trans hids1.1, hsp.2.trans hids1.2⟩

theorem play_attack_ids (g g' : GameManager) (pid : PlayerID) (a : PlayAttack) (k : Kekka)
    (h : g.play_attack pid a = (.ok k, g')) :
    g'.p0.id = g.p0.id ∧ g'.p1.id = g.p1.id := by
  obtain ⟨hnum, hatk, hbranch⟩ := play_attack_ok_inv g pid a _ _ h
  rcases hbranch with ⟨hdef, hfd⟩ | ⟨_, _, hg'⟩
  swap
  · rw [hg']
    simp
  set g1 := g.set_player pid.opposite { g.player pid.opposite with
      hand := removeIdxs (g.player pid.opposite).hand
        (((g.player pid.opposite).card_positions a.play_card).reverse.take
          ((g.player pid).card_positions a.play_card).length) } with hg1
  set g2 := g1.set_player pid { g1.player pid with
      hand := removeIdxs (g1.player pid).hand
        ((g.player pid).card_positions a.play_card).reverse } with hg2
  have hcase := attack_full_defense_inv g pid a.play_card _ _ hfd g1 (by rw [hg1]) g2
    (by rw [hg2])
  have hids2 : g2.p0.id = g.p0.id ∧ g2.p1.id = g.p1.id := by
    rw [hg2]
    have hsp2 := set_player_hand_ids g1 pid
      (removeIdxs (g1.player pid).hand ((g.player pid).card_positions a.play_card).reverse)
    refine ⟨hsp2.1.trans ?_, hsp2.2.trans ?_⟩ <;>
      (rw [hg1]
       have hsp1 := set_player_hand_ids g pid.opposite
         (removeIdxs (g.player pid.opposite).hand
           (((g.player pid.opposite).card_positions a.play_card).reverse.take
             ((g.player pid).card_positions a.play_card).length))
       simp [hsp1.1, hsp1.2])
  rcases hcase with ⟨_, _, hg'⟩ | ⟨_, hrest2⟩
  · rw [hg']
    exact hids2
  rcases hrest2 with ⟨hand, yam, _, _, hg'⟩ | ⟨hand, yam, _, _, hg'⟩
  · rw [hg']
    have hsp := set_player_hand_ids g2 pid hand
    simpa using ⟨hsp.1.trans hids2.1, hsp.2.trans hids2.2⟩
  · rw [hg']
    have hsp := set_player_hand_ids g2 pid hand
    simpa using ⟨hsp.1.trans hids2.1, hsp.2.trans hids2.2⟩

/-- Every reachable turn-top state satisfies the master invariant: well-formed
player ids, positions within `1 ≤ pos0 < pos1 ≤ 23`, an active hand of 3–5
cards, a full opposing hand, at most five copies of any rank in play, and at
most 25 cards in play. -/
theorem reaches_inv (g : GameManager) (hg : Reaches g) : Inv g := by
  induction hg with
  | init d mw hd => exact inv_new d mw hd
  | move_continue g g' m hg h ih => exact inv_move_continue g g' m ih h
  | attack_continue g g' a hg h ih => exact inv_attack_continue g g' a ih h
  | move_round_end g g' m w d hg h hd ih =>
    have hids := play_movement_ids g g' _ m _ h
    exact inv_reset g' d hd (hids.1.trans ih.1) (hids.2.trans ih.2.1)
  | attack_round_end g g' a w d hg h hd ih =>
    have hids := play_attack_ids g g' _ a _ h
    exact inv_reset g' d hd (hids.1.trans ih.1) (hids.2.trans ih.2.1)

/-! ## Further characterisations of the two operations -/

theorem play_movement_err_state (g g2 : GameManager) (id : PlayerID) (m : PlayMovement)
    (e : String) (h : g.play_movement id m = (.error e, g2)) : g2 = g := by
  unfold GameManager.play_movement at h
  split at h
  · exact (congrArg Prod.snd h).symm
  · rename_i index hpos
    split at h
    · rename_i hcm
      set g1 := (g.set_player id ((g.player id).remove_card index)).move_player id
        m.direction m.play_card with hg1
      by_cases hca : (g1.player id.opposite).can_actions g1.board
      · rw [if_neg (by simp [hca])] at h
        cases hk : kaishuu (g1.player id).hand g1.board.yamafuda with
        | full hand yam =>
          rw [hk] at h
          simp at h
        | tiebreak hand yam =>
          rw [hk] at h
          simp at h
      · have hcaf : (g1.player id.opposite).can_actions g1.board = false := by
          revert hca
          cases (g1.player id.opposite).can_actions g1.board <;> simp
        rw [if_pos (by simp [hcaf])] at h
        simp at h
    · exact (congrArg Prod.snd h).symm

theorem attack_full_defense_fst_ok (g : GameManager) (id : PlayerID) (card : Nat) :
    ∃ kk, (g.attack_full_defense id card).1 = Except.ok kk := by
  set g1 := g.set_player id.opposite { g.player id.opposite with
      hand := removeIdxs (g.player id.opposite).hand
        (((g.player id.opposite).card_positions card).reverse.take
          ((g.player id).card_positions card).length) } with hg1
  set g2 := g1.set_player id { g1.player id with
      hand := removeIdxs (g1.player id).hand
        ((g.player id).card_positions card).reverse } with hg2
  have hstep : g.attack_full_defense id card =
      (if (!(g2.player id.opposite).can_actions g2.board) = true then
        (Except.ok (Kekka.REnd (some id)), g2)
      else
        match kaishuu (g2.player id).hand g2.board.yamafuda with
        | .full hand yamafuda =>
          (.ok Kekka.Continue,
            (g2.set_player id { g2.player id with hand := hand }).set_yamafuda yamafuda)
        | .tiebreak hand yamafuda =>
          (.ok (((g2.set_player id { g2.player id with hand := hand }).set_yamafuda
              yamafuda).round_end_yamafuda).1,
            (((g2.set_player id { g2.player id with hand := hand }).set_yamafuda
              yamafuda).round_end_yamafuda).2)) := by
    rw [hg2, hg1]
    rfl
  rw [hstep]
  split
  · exact ⟨_, rfl⟩
  · cases hk : kaishuu (g2.player id).hand g2.board.yamafuda with
    | full hand yam => exact ⟨_, rfl⟩
    | tiebreak hand yam => exact ⟨_, rfl⟩

theorem play_attack_err_state (g g2 : GameManager) (id : PlayerID) (a : PlayAttack)
    (e : String) (h : g.play_attack id a = (.error e, g2)) : g2 = g := by
  have hstep : g.play_attack id a =
      (if a.num_of_card ≤ ((g.player id).card_positions a.play_card).length ∧
          (g.player id).can_attack g.board a.play_card = true then
        if ((g.player id).card_positions a.play_card).length ≤
            ((g.player id.opposite).card_positions a.play_card).length then
          g.attack_full_defense id a.play_card
        else (.ok (g.round_end_attack id).1, (g.round_end_attack id).2)
      else (.error "攻撃はとどかないか、そんなに枚数持っていません！", g)) := rfl
  rw [hstep] at h
  split at h
  · split at h
    · obtain ⟨kk, hkk⟩ := attack_full_defense_fst_ok g id a.play_card
      rw [h] at hkk
      simp at hkk
    · simp at h
  · exact (congrArg Prod.snd h).symm

theorem can_attack_iff (g : GameManager) (id : PlayerID) (card : Nat) :
    ((g.player id).can_attack g.board card = true) ↔
      card = g.board.p1_pos - g.board.p0_pos := by
  unfold Player.can_attack
  cases hpid : (g.player id).id <;>
    simp [Board.pos, PlayerID.opposite, eq_comm]

theorem play_movement_pos (g g' : GameManager) (pid : PlayerID) (m : PlayMovement) (k : Kekka)
    (h : g.play_movement pid m = (.ok k, g'))
    (h0 : g.p0.id = .zero) (h1 : g.p1.id = .one)
    (hp1 : 1 ≤ g.board.p0_pos) (hp2 : g.board.p0_pos < g.board.p1_pos)
    (hp3 : g.board.p1_pos ≤ 23) :
    1 ≤ g'.board.p0_pos ∧ g'.board.p0_pos < g'.board.p1_pos ∧ g'.board.p1_pos ≤ 23 := by
  obtain ⟨index, hpos, hcm, hrest⟩ := play_movement_ok_inv g pid m _ _ h
  set S := g.set_player pid ((g.player pid).remove_card index) with hS
  set g1 := S.move_player pid m.direction m.play_card with hg1
  have hSid : (S.player pid).id = pid := by
    rw [hS]
    simp only [player_set_player_self]
    exact player_id_of_ids g pid h0 h1
  have hScm : (S.player pid).can_move S.board m.play_card m.direction = true := by
    rw [can_move_eq_of_id (S.player pid) (g.player pid) S.board m.play_card m.direction
      (by rw [hSid, player_id_of_ids g pid h0 h1])]
    rw [hS]
    simp only [set_player_board]
    exact hcm
  have hbounds := move_player_pos_bounds S pid m.direction m.play_card hSid hScm
    (by rw [hS]; simpa using hp1) (by rw [hS]; simpa using hp2) (by rw [hS]; simpa using hp3)
  rw [← hg1] at hbounds
  have hcase := hrest g1 (by rw [hg1, hS])
  rcases hcase with ⟨_, _, hg'⟩ | ⟨_, hrest2⟩
  · rw [hg']
    simpa using hbounds
  rcases hrest2 with ⟨hand, yam, _, _, hg'⟩ | ⟨hand, yam, _, _, hg'⟩ <;>
    (rw [hg']
     simpa using hbounds)

theorem play_attack_pos (g : GameManager) (id : PlayerID) (a : PlayAttack) :
    (g.play_attack id a).2.board.p0_pos = g.board.p0_pos ∧
    (g.play_attack id a).2.board.p1_pos = g.board.p1_pos := by
  rcases hres : g.play_attack id a with ⟨r, g2⟩
  cases r with
  | error e =>
    have he := play_attack_err_state g g2 id a e hres
    simp [he]
  | ok kk =>
    obtain ⟨hnum, hatk, hbranch⟩ := play_attack_ok_inv g id a kk g2 hres
    rcases hbranch with ⟨hdef, hfd⟩ | ⟨_, _, hg'⟩
    · have hcase := attack_full_defense_inv g id a.play_card kk g2 hfd _ rfl _ rfl
      have hb : (((g.set_player id.opposite { g.player id.opposite with
          hand := removeIdxs (g.player id.opposite).hand
            (((g.player id.opposite).card_positions a.play_card).reverse.take
              ((g.player id).card_positions a.play_card).length) }).set_player id
          { ((g.set_player id.opposite { g.player id.opposite with
              hand := removeIdxs (g.player id.opposite).hand
                (((g.player id.opposite).card_positions a.play_card).reverse.take
                  ((g.player id).card_positions a.play_card).length) }).player id) with
            hand := removeIdxs ((g.set_player id.opposite { g.player id.opposite with
              hand := removeIdxs (g.player id.opposite).hand
                (((g.player id.opposite).card_positions a.play_card).reverse.take
                  ((g.player id).card_positions a.play_card).length) }).player id).hand
              ((g.player id).card_positions a.play_card).reverse }).board) = g.board := by
        simp
      rcases hcase with ⟨_, _, hg'⟩ | ⟨_, hrest2⟩
      · rw [hg']
        simp [hb]
      · rcases hrest2 with ⟨hand, yam, _, _, hg'⟩ | ⟨hand, yam, _, _, hg'⟩ <;>
          (rw [hg']
           simp [hb])
    · rw [hg']
      simp

/-! ## The deck-exhaustion tie-break, as the specification words it -/

/-- Winner selection of §4.5 of the specification, written from the spec text:
`distance = pos(One) − pos(Zero)`; `h0`, `h1` count cards equal to `distance`;
if `h0 ≠ h1` the player with more matching cards wins; otherwise, with
`edge0 = 23 − pos(Zero)` and `edge1 = pos(One) − 1`, the smaller edge wins and
equal edges draw. -/
def specTiebreakWinner (g : GameManager) : Option PlayerID :=
  let distance := g.board.p1_pos - g.board.p0_pos
  let h0 := (g.player .zero).hand.count distance
  let h1 := (g.player .one).hand.count distance
  if h0 ≠ h1 then some (if h1 < h0 then .zero else .one)
  else
    let edge0 := 23 - g.board.p0_pos
    let edge1 := g.board.p1_pos - 1
    if edge0 = edge1 then none
    else some (if edge0 < edge1 then .zero else .one)

/-- Awarding the round per the spec: the winner (if any) scores one point and
becomes the game winner when the threshold is reached; a draw changes nothing. -/
def specAwardRound (g : GameManager) (w : Option PlayerID) : Kekka × GameManager :=
  match w with
  | none => (Kekka.REnd none, g)
  | some pid =>
    let g1 := match pid with
      | .zero => { g with board := { g.board with p0_score := g.board.p0_score + 1 } }
      | .one => { g with board := { g.board with p1_score := g.board.p1_score + 1 } }
    let g2 := if g1.max_win ≤ g1.board.score pid then { g1 with game_end := some pid } else g1
    (Kekka.REnd (some pid), g2)

/-- Claim C4.  Whenever the deck-exhaustion tie-break runs it behaves exactly
as §4.5 describes: with `distance = pos(One) − pos(Zero)` and `h0`, `h1` the
players' counts of cards equal to `distance`, the player with more matching
cards wins (score +1); on a tie the player with the smaller of
`edge0 = 23 − pos(Zero)` and `edge1 = pos(One) − 1` wins; equal edges draw the
round with neither score changed. -/
theorem round_end_yamafuda_eq_spec (g : GameManager) :
    g.round_end_yamafuda = specAwardRound g (specTiebreakWinner g) := by
  unfold GameManager.round_end_yamafuda specTiebreakWinner
  simp only [Board.pos, GameManager.player, Player.count_card, MOST_RIGHT_SIDE,
    MOST_LEFT_SIDE]
  set a0 := List.count (g.board.p1_pos - g.board.p0_pos) g.p0.hand with ha0
  set a1 := List.count (g.board.p1_pos - g.board.p0_pos) g.p1.hand with ha1
  set e0 := 23 - g.board.p0_pos with he0
  set e1 := g.board.p1_pos - 1 with he1
  rcases lt_trichotomy a0 a1 with hlt | heq | hgt
  · rw [if_pos hlt, if_pos (show a0 ≠ a1 by omega), if_neg (show ¬ a1 < a0 by omega)]
    rfl
  · rw [if_neg (show ¬ a0 < a1 by omega), if_neg (show ¬ a1 < a0 by omega),
      if_neg (show ¬ a0 ≠ a1 by omega)]
    rcases lt_trichotomy e0 e1 with hel | hee | heg
    · rw [if_pos hel, if_neg (show ¬ e0 = e1 by omega), if_pos hel]
      rfl
    · rw [if_neg (show ¬ e0 < e1 by omega), if_neg (show ¬ e1 < e0 by omega),
        if_pos hee]
      rfl
    · rw [if_neg (show ¬ e0 < e1 by omega), if_pos heg, if_neg (show ¬ e0 = e1 by omega),
        if_neg (show ¬ e0 < e1 by omega)]
      rfl
  · rw [if_neg (show ¬ a0 < a1 by omega), if_pos hgt, if_pos (show a0 ≠ a1 by omega),
      if_pos hgt]
    rfl

/-! ## Helper characterisations for the Continue outcome -/

theorem play_movement_continue_hand (g g' : GameManager) (id : PlayerID) (m : PlayMovement)
    (hlen : (g.player id).hand.length ≤ 5)
    (h : g.play_movement id m = (.ok Kekka.Continue, g')) :
    (g'.player id).hand.length = 5 ∧ g'.board.yamafuda ≠ [] := by
  obtain ⟨index, hpos, hcm, hrest⟩ := play_movement_ok_inv g id m _ _ h
  obtain ⟨herase, hmem⟩ := card_pos_some_erase _ _ _ hpos
  set S := g.set_player id ((g.player id).remove_card index) with hS
  set g1 := S.move_player id m.direction m.play_card with hg1
  have hcase := hrest g1 (by rw [hg1, hS])
  rcases hcase with ⟨_, hk, _⟩ | ⟨hca, hrest2⟩
  · exact absurd hk (by simp)
  rcases hrest2 with ⟨hand, yam, hk, _, hg'⟩ | ⟨hand, yam, hk, hkek, _⟩
  swap
  · obtain ⟨w, hw⟩ := round_end_yamafuda_fst
      ((g1.set_player id { g1.player id with hand := hand }).set_yamafuda yam)
    rw [hw] at hkek
    exact absurd hkek (by simp)
  have hplayer1 : (g1.player id).hand = (g.player id).hand.erase m.play_card := by
    rw [hg1, hS]
    simp only [move_player_player, player_set_player_self]
    show ((g.player id).remove_card index).hand = _
    unfold Player.remove_card
    simpa using herase
  have hElen : ((g.player id).hand.erase m.play_card).length + 1 =
      (g.player id).hand.length := by
    have := List.length_erase_of_mem hmem
    have hpos' : 0 < (g.player id).hand.length := List.length_pos.2 (by
      intro hnil
      rw [hnil] at hmem
      simp at hmem)
    omega
  have hfull := kaishuu_full_of_lt (g1.player id).hand g1.board.yamafuda hand yam
    (by rw [hplayer1]; omega) hk
  constructor
  · rw [hg']
    simpa using hfull.1
  · rw [hg']
    simpa using hfull.2

theorem play_attack_continue_hand (g g' : GameManager) (id : PlayerID) (a : PlayAttack)
    (hlen : (g.player id).hand.length ≤ 5)
    (hdeck : g.board.yamafuda ≠ [])
    (h : g.play_attack id a = (.ok Kekka.Continue, g')) :
    (g'.player id).hand.length = 5 ∧ g'.board.yamafuda ≠ [] := by
  obtain ⟨hnum, hatk, hbranch⟩ := play_attack_ok_inv g id a _ _ h
  rcases hbranch with ⟨hdef, hfd⟩ | ⟨_, hk, _⟩
  swap
  · exact absurd hk (by simp)
  set g1 := g.set_player id.opposite { g.player id.opposite with
      hand := removeIdxs (g.player id.opposite).hand
        (((g.player id.opposite).card_positions a.play_card).reverse.take
          ((g.player id).card_positions a.play_card).length) } with hg1
  set g2 := g1.set_player id { g1.player id with
      hand := removeIdxs (g1.player id).hand
        ((g.player id).card_positions a.play_card).reverse } with hg2
  have hcase := attack_full_defense_inv g id a.play_card _ _ hfd g1 (by rw [hg1]) g2
    (by rw [hg2])
  rcases hcase with ⟨_, hkk, _⟩ | ⟨hca, hrest2⟩
  · exact absurd hkk (by simp)
  rcases hrest2 with ⟨hand, yam, hk, _, hg'⟩ | ⟨hand, yam, hk, hkek, _⟩
  swap
  · obtain ⟨w, hw⟩ := round_end_yamafuda_fst
      ((g2.set_player id { g2.player id with hand := hand }).set_yamafuda yam)
    rw [hw] at hkek
    exact absurd hkek (by simp)
  have hg1pid : g1.player id = g.player id := by
    rw [hg1]
    simp
  have hArem : removeIdxs (g1.player id).hand
      ((g.player id).card_positions a.play_card).reverse =
      (g.player id).hand.filter (fun x => !(x == a.play_card)) := by
    rw [hg1pid, card_positions_eq]
    exact removeIdxs_positions_reverse _ _
  have hg2pidhand : (g2.player id).hand =
      (g.player id).hand.filter (fun x => !(x == a.play_card)) := by
    rw [hg2]
    simpa using hArem
  have hg2yam : g2.board.yamafuda = g.board.yamafuda := by
    rw [hg2, hg1]
    simp
  have hkF : kaishuu ((g.player id).hand.filter (fun x => !(x == a.play_card)))
      g.board.yamafuda = .full hand yam := by
    rw [← hg2pidhand, ← hg2yam]
    exact hk
  have hAle : ((g.player id).hand.filter (fun x => !(x == a.play_card))).length ≤
      (g.player id).hand.length := by
    have := filter_ne_length (g.player id).hand a.play_card
    omega
  have hmain : hand.length = 5 ∧ yam ≠ [] := by
    by_cases hfl : ((g.player id).hand.filter (fun x => !(x == a.play_card))).length < 5
    · exact kaishuu_full_of_lt _ _ _ _ hfl hkF
    · rw [kaishuu_full_of_ge _ _ (by omega)] at hkF
      injection hkF with e1 e2
      have hle := congrArg List.length e1
      constructor
      · omega
      · rw [← e2]
        exact hdeck
  constructor
  · rw [hg']
    simpa using hmain.1
  · rw [hg']
    simpa using hmain.2

/-! ## Concrete fixtures used by the claim theorems -/

/-- A reachable-shaped state where a full-defense attack stalemates the
defender: distance 2, attacker `Zero` holds two 2s, defender `One` holds two
2s and three 5s and, once the 2s are gone, has no legal action at positions
19 and 21. -/
def gBugC1 : GameManager :=
  { p0 := { id := .zero, hand := [2, 2, 1, 1, 1] }
    p1 := { id := .one, hand := [2, 2, 5, 5, 5] }
    board := { p0_pos := 19, p1_pos := 21, p0_score := 0, p1_score := 0,
               yamafuda := [3, 3], current_player := .zero }
    first_player := .zero
    game_end := none
    max_win := 100 }

/-- A state where the single remaining deck card both fills the mover's hand
back to five and empties the deck. -/
def gTieC2 : GameManager :=
  { p0 := { id := .zero, hand := [1, 2, 3, 3, 3] }
    p1 := { id := .one, hand := [4, 4, 5, 5, 5] }
    board := { p0_pos := 1, p1_pos := 23, p0_score := 0, p1_score := 0,
               yamafuda := [4], current_player := .zero }
    first_player := .zero
    game_end := none
    max_win := 100 }

/-- A state whose movement resolves as *Continue* (two cards in the deck). -/
def gContC2 : GameManager :=
  { p0 := { id := .zero, hand := [1, 2, 3, 3, 3] }
    p1 := { id := .one, hand := [4, 5, 5, 5, 2] }
    board := { p0_pos := 1, p1_pos := 23, p0_score := 0, p1_score := 0,
               yamafuda := [4, 4], current_player := .zero }
    first_player := .zero
    game_end := none
    max_win := 100 }

/-- Claim C1 (code bug).  When a valid, fully defended attack leaves the
defender with no legal action, `play_attack` returns the round to the attacker
(`REnd (some attacker)`) after removing the matching cards from both hands and
without touching the deck — but, unlike the movement stalemate
(`round_end_tumi`), it does **not** increment the attacker's score and does not
set the game-winner flag: at the failing input the attacker's score stays 0 and
`game_end` stays `none`, where the specification requires the score to rise to
1. -/
theorem c1_attack_stalemate_scoreless :
    (gBugC1.play_attack .zero { play_card := 2, num_of_card := 2 }).1 =
      .ok (Kekka.REnd (some .zero)) ∧
    (gBugC1.play_attack .zero { play_card := 2, num_of_card := 2 }).2.p0.hand = [1, 1, 1] ∧
    (gBugC1.play_attack .zero { play_card := 2, num_of_card := 2 }).2.p1.hand = [5, 5, 5] ∧
    (gBugC1.play_attack .zero { play_card := 2, num_of_card := 2 }).2.board.yamafuda =
      gBugC1.board.yamafuda ∧
    (gBugC1.play_attack .zero { play_card := 2, num_of_card := 2 }).2.board.p0_score = 0 ∧
    (gBugC1.play_attack .zero { play_card := 2, num_of_card := 2 }).2.game_end = none :=
  ⟨rfl, rfl, rfl, rfl, rfl, rfl⟩

/-- Claim C2 is false as stated: at `gTieC2` the single replenishment draw
brings the mover's hand back to exactly five cards, yet `play_movement`
resolves the round through the deck-exhaustion tie-break (the draw also
emptied the deck) instead of returning *Continue*. -/
theorem c2_full_hand_tiebreak_counterexample :
    (gTieC2.play_movement .zero { play_card := 1, direction := .forward }).1 =
      .ok (Kekka.REnd (some .zero)) ∧
    ((gTieC2.play_movement .zero
      { play_card := 1, direction := .forward }).2.player .zero).hand.length = 5 ∧
    (gTieC2.play_movement .zero { play_card := 1, direction := .forward }).1 ≠
      .ok Kekka.Continue := by
  refine ⟨rfl, rfl, ?_⟩
  rw [show (gTieC2.play_movement .zero { play_card := 1, direction := .forward }).1 =
    .ok (Kekka.REnd (some .zero)) from rfl]
  simp

/-- Claim C2 (amended).  A legal movement (resp. full-defense attack from a
state with a nonempty deck) resolves as *Continue* exactly when replenishment
ends with a five-card hand **and** a still-nonempty deck; when the deck empties
before or exactly as the hand refills, the deck-exhaustion tie-break resolves
the round instead.  The replenishment loop itself exits normally iff the hand
plus deck hold strictly more than five cards. -/
theorem c2_continue_needs_leftover_deck :
    (∀ (g g' : GameManager) (id : PlayerID) (m : PlayMovement),
      (g.player id).hand.length ≤ 5 →
      g.play_movement id m = (.ok Kekka.Continue, g') →
      (g'.player id).hand.length = 5 ∧ g'.board.yamafuda ≠ []) ∧
    (∀ (g g' : GameManager) (id : PlayerID) (a : PlayAttack),
      (g.player id).hand.length ≤ 5 →
      g.board.yamafuda ≠ [] →
      g.play_attack id a = (.ok Kekka.Continue, g') →
      (g'.player id).hand.length = 5 ∧ g'.board.yamafuda ≠ []) ∧
    (∀ hand deck : List Nat, hand.length < 5 →
      ((∃ h' d', kaishuu hand deck = .full h' d') ↔ 5 < hand.length + deck.length)) :=
  ⟨play_movement_continue_hand, play_attack_continue_hand, kaishuu_full_iff⟩

/-- Witness for the amended Claim C2 at a concrete *Continue* movement. -/
theorem c2_continue_needs_leftover_deck_witness :
    ((gContC2.play_movement .zero { play_card := 1, direction := .forward }).2.player
      .zero).hand.length = 5 ∧
    (gContC2.play_movement .zero
      { play_card := 1, direction := .forward }).2.board.yamafuda ≠ [] :=
  c2_continue_needs_leftover_deck.1 gContC2 _ .zero
    { play_card := 1, direction := .forward } (by decide) rfl

/-- A fixed fully-known initial deck used to witness reachability claims. -/
def deck25 : List Nat :=
  [1, 1, 1, 1, 1, 2, 2, 2, 2, 2, 3, 3, 3, 3, 3, 4, 4, 4, 4, 4, 5, 5, 5, 5, 5]

/-- Claim C3.  At the top of every turn of any reachable game the active
player's hand holds between 3 and 5 cards, so the private hand snapshot
(`HandInfo::from_vec`, which unconditionally unwraps the first three entries)
never fails on it. -/
theorem c3_active_hand_three_to_five (g : GameManager) (hg : Reaches g) :
    3 ≤ (g.player g.board.current_player).hand.length ∧
    (g.player g.board.current_player).hand.length ≤ 5 ∧
    (HandInfo.from_vec (g.player g.board.current_player).hand).isSome = true := by
  obtain ⟨_, _, _, _, _, hl3, hl5, _, _, _⟩ := reaches_inv g hg
  refine ⟨hl3, hl5, ?_⟩
  rcases hh : (g.player g.board.current_player).hand with _ | ⟨a, _ | ⟨b, _ | ⟨c, t⟩⟩⟩ <;>
    rw [hh] at hl3
  · simp at hl3
  · simp at hl3
  · simp at hl3
  · rfl

/-- Witness for Claim C3 at the freshly dealt game. -/
theorem c3_active_hand_witness :
    (HandInfo.from_vec ((GameManager.new deck25 100).player
      (GameManager.new deck25 100).board.current_player).hand).isSome = true :=
  (c3_active_hand_three_to_five _ (Reaches.init deck25 100 (by decide))).2.2

/-- Claim C5.  Every reachable state satisfies `1 ≤ pos(Zero) < pos(One) ≤ 23`;
`play_movement` preserves those bounds from any well-formed state (errors leave
the state untouched, and the §4.2 legality predicates guard every update); and
`play_attack` never changes either position, whatever its outcome. -/
theorem c5_positions_bounds :
    (∀ g : GameManager, Reaches g →
      1 ≤ g.board.p0_pos ∧ g.board.p0_pos < g.board.p1_pos ∧ g.board.p1_pos ≤ 23) ∧
    (∀ (g : GameManager) (id : PlayerID) (m : PlayMovement),
      g.p0.id = .zero → g.p1.id = .one →
      1 ≤ g.board.p0_pos → g.board.p0_pos < g.board.p1_pos → g.board.p1_pos ≤ 23 →
      1 ≤ (g.play_movement id m).2.board.p0_pos ∧
      (g.play_movement id m).2.board.p0_pos < (g.play_movement id m).2.board.p1_pos ∧
      (g.play_movement id m).2.board.p1_pos ≤ 23) ∧
    (∀ (g : GameManager) (id : PlayerID) (a : PlayAttack),
      (g.play_attack id a).2.board.p0_pos = g.board.p0_pos ∧
      (g.play_attack id a).2.board.p1_pos = g.board.p1_pos) := by
  refine ⟨?_, ?_, play_attack_pos⟩
  · intro g hg
    obtain ⟨_, _, hp1, hp2, hp3, _⟩ := reaches_inv g hg
    exact ⟨hp1, hp2, hp3⟩
  · intro g id m h0 h1 hp1 hp2 hp3
    rcases hres : g.play_movement id m with ⟨r, g2⟩
    cases r with
    | error e =>
      have he := play_movement_err_state g g2 id m e hres
      subst he
      exact ⟨hp1, hp2, hp3⟩
    | ok kk =>
      exact play_movement_pos g g2 id m kk hres h0 h1 hp1 hp2 hp3

/-- Witness for Claim C5 at the freshly dealt game. -/
theorem c5_positions_bounds_witness :
    1 ≤ (GameManager.new deck25 100).board.p0_pos ∧
    (GameManager.new deck25 100).board.p0_pos < (GameManager.new deck25 100).board.p1_pos ∧
    (GameManager.new deck25 100).board.p1_pos ≤ 23 :=
  c5_positions_bounds.1 _ (Reaches.init deck25 100 (by decide))

theorem play_movement_total (g g' : GameManager) (id : PlayerID) (m : PlayMovement)
    (k : Kekka) (h : g.play_movement id m = (.ok k, g')) :
    totalLen g' + 1 = totalLen g := by
  obtain ⟨index, hpos, hcm, hrest⟩ := play_movement_ok_inv g id m _ _ h
  obtain ⟨herase, hmem⟩ := card_pos_some_erase _ _ _ hpos
  have hrc : (g.player id).remove_card index =
      { g.player id with hand := (g.player id).hand.erase m.play_card } := by
    unfold Player.remove_card
    rw [herase]
  set S := g.set_player id ((g.player id).remove_card index) with hS
  set g1 := S.move_player id m.direction m.play_card with hg1
  have h1' : totalLen S + (g.player id).hand.length =
      totalLen g + ((g.player id).hand.erase m.play_card).length := by
    rw [hS, hrc]
    exact totalLen_set_player_hand g id ((g.player id).hand.erase m.play_card)
  have hg1tot : totalLen g1 = totalLen S := by
    rw [hg1, totalLen_move_player]
  have hElen : ((g.player id).hand.erase m.play_card).length + 1 =
      (g.player id).hand.length := by
    have := List.length_erase_of_mem hmem
    have hpos' : 0 < (g.player id).hand.length := List.length_pos.2 (by
      intro hnil
      rw [hnil] at hmem
      simp at hmem)
    omega
  have hplayer1 : (g1.player id).hand = (g.player id).hand.erase m.play_card := by
    rw [hg1, hS, hrc]
    simp
  have hyam1 : g1.board.yamafuda = g.board.yamafuda := by
    rw [hg1, hS]
    simp
  have hcase := hrest g1 (by rw [hg1, hS])
  rcases hcase with ⟨_, _, hg'⟩ | ⟨_, hrest2⟩
  · rw [hg', totalLen_round_end_tumi]
    omega
  rcases hrest2 with ⟨hand, yam, hk, _, hg'⟩ | ⟨hand, yam, hk, _, hg'⟩
  · have hkl := kaishuu_length _ _ _ _ (Or.inl hk)
    have h2' := totalLen_set_player_hand g1 id hand
    have h4' := totalLen_set_yamafuda (g1.set_player id { g1.player id with hand := hand }) yam
    have he1 : (g1.set_player id { g1.player id with hand := hand }).board.yamafuda.length =
        g.board.yamafuda.length := by
      simp [hyam1]
    rw [hplayer1] at h2'
    rw [hyam1] at hkl
    rw [hplayer1] at hkl
    rw [hg']
    omega
  · have hkl := kaishuu_length _ _ _ _ (Or.inr hk)
    have h2' := totalLen_set_player_hand g1 id hand
    have h4' := totalLen_set_yamafuda (g1.set_player id { g1.player id with hand := hand }) yam
    have he1 : (g1.set_player id { g1.player id with hand := hand }).board.yamafuda.length =
        g.board.yamafuda.length := by
      simp [hyam1]
    rw [hplayer1] at h2'
    rw [hyam1] at hkl
    rw [hplayer1] at hkl
    rw [hg', totalLen_round_end_yamafuda]
    omega

theorem play_attack_total (g g' : GameManager) (id : PlayerID) (a : PlayAttack)
    (k : Kekka) (h : g.play_attack id a = (.ok k, g')) :
    totalLen g' = totalLen g ∨
    totalLen g' + 2 * ((g.player id).hand.count a.play_card) = totalLen g := by
  obtain ⟨hnum, hatk, hbranch⟩ := play_attack_ok_inv g id a _ _ h
  rcases hbranch with ⟨hdef, hfd⟩ | ⟨_, _, hg'⟩
  swap
  · left
    rw [hg', totalLen_round_end_attack]
  right
  set g1 := g.set_player id.opposite { g.player id.opposite with
      hand := removeIdxs (g.player id.opposite).hand
        (((g.player id.opposite).card_positions a.play_card).reverse.take
          ((g.player id).card_positions a.play_card).length) } with hg1
  set g2 := g1.set_player id { g1.player id with
      hand := removeIdxs (g1.player id).hand
        ((g.player id).card_positions a.play_card).reverse } with hg2
  have hcase := attack_full_defense_inv g id a.play_card _ _ hfd g1 (by rw [hg1]) g2
    (by rw [hg2])
  have hHpl : ((g.player id).card_positions a.play_card).length =
      (g.player id).hand.count a.play_card := positionsOf_length _ _
  have hDpl : ((g.player id.opposite).card_positions a.play_card).length =
      (g.player id.opposite).hand.count a.play_card := positionsOf_length _ _
  have hkD : ((g.player id).card_positions a.play_card).length ≤
      (g.player id.opposite).hand.count a.play_card := by
    rw [← hDpl]
    exact hdef
  have hDrem := removeIdxs_positions_take (g.player id.opposite).hand a.play_card
    ((g.player id).card_positions a.play_card).length hkD
  have hDlen : (removeIdxs (g.player id.opposite).hand
      (((g.player id.opposite).card_positions a.play_card).reverse.take
        ((g.player id).card_positions a.play_card).length)).length +
      ((g.player id).card_positions a.play_card).length =
      (g.player id.opposite).hand.length := by
    simpa [card_positions_eq] using hDrem.1
  have hg1pid : g1.player id = g.player id := by
    rw [hg1]
    simp
  have hArem : removeIdxs (g1.player id).hand
      ((g.player id).card_positions a.play_card).reverse =
      (g.player id).hand.filter (fun x => !(x == a.play_card)) := by
    rw [hg1pid, card_positions_eq]
    exact removeIdxs_positions_reverse _ _
  have hAlen : (removeIdxs (g1.player id).hand
      ((g.player id).card_positions a.play_card).reverse).length +
      ((g.player id).card_positions a.play_card).length = (g.player id).hand.length := by
    rw [hArem]
    have := filter_ne_length (g.player id).hand a.play_card
    omega
  have h0' : totalLen g1 + (g.player id.opposite).hand.length =
      totalLen g + (removeIdxs (g.player id.opposite).hand
        (((g.player id.opposite).card_positions a.play_card).reverse.take
          ((g.player id).card_positions a.play_card).length)).length := by
    rw [hg1]
    exact totalLen_set_player_hand g id.opposite _
  have h1' : totalLen g2 + (g1.player id).hand.length =
      totalLen g1 + (removeIdxs (g1.player id).hand
        ((g.player id).card_positions a.play_card).reverse).length := by
    rw [hg2]
    exact totalLen_set_player_hand g1 id _
  have hplen : (g1.player id).hand.length = (g.player id).hand.length := by
    rw [hg1pid]
  rcases hcase with ⟨_, _, hg'⟩ | ⟨_, hrest2⟩
  · rw [hg']
    omega
  rcases hrest2 with ⟨hand, yam, hk, _, hg'⟩ | ⟨hand, yam, hk, _, hg'⟩
  · have hkl := kaishuu_length _ _ _ _ (Or.inl hk)
    have h2' := totalLen_set_player_hand g2 id hand
    have h4' := totalLen_set_yamafuda (g2.set_player id { g2.player id with hand := hand }) yam
    have hg2yam : g2.board.yamafuda = g.board.yamafuda := by
      rw [hg2, hg1]
      simp
    have he1 : (g2.set_player id { g2.player id with hand := hand }).board.yamafuda.length =
        g.board.yamafuda.length := by
      simp [hg2yam]
    have hg2hand : (g2.player id).hand = removeIdxs (g1.player id).hand
        ((g.player id).card_positions a.play_card).reverse := by
      rw [hg2]
      simp
    rw [hg2hand] at h2' hkl
    rw [hg2yam] at hkl
    rw [hg']
    omega
  · have hkl := kaishuu_length _ _ _ _ (Or.inr hk)
    have h2' := totalLen_set_player_hand g2 id hand
    have h4' := totalLen_set_yamafuda (g2.set_player id { g2.player id with hand := hand }) yam
    have hg2yam : g2.board.yamafuda = g.board.yamafuda := by
      rw [hg2, hg1]
      simp
    have he1 : (g2.set_player id { g2.player id with hand := hand }).board.yamafuda.length =
        g.board.yamafuda.length := by
      simp [hg2yam]
    have hg2hand : (g2.player id).hand = removeIdxs (g1.player id).hand
        ((g.player id).card_positions a.play_card).reverse := by
      rw [hg2]
      simp
    rw [hg2hand] at h2' hkl
    rw [hg2yam] at hkl
    rw [hg', totalLen_round_end_yamafuda]
    omega

/-- Claim C6.  Card conservation: a resolved movement discards exactly one
card (deck plus hands shrink by one), a resolved attack discards either
nothing (failed defense) or twice the attacker's count of the played card
(full defense); a fresh deal and every round reset hold exactly 25 cards, and
every reachable state holds at most 25 — so
`deckSize + |hand0| + |hand1| + discardedThisRound = 25` throughout a round. -/
theorem c6_card_conservation :
    (∀ (g g' : GameManager) (id : PlayerID) (m : PlayMovement) (k : Kekka),
      g.play_movement id m = (.ok k, g') → totalLen g' + 1 = totalLen g) ∧
    (∀ (g g' : GameManager) (id : PlayerID) (a : PlayAttack) (k : Kekka),
      g.play_attack id a = (.ok k, g') →
      totalLen g' = totalLen g ∨
      totalLen g' + 2 * ((g.player id).hand.count a.play_card) = totalLen g) ∧
    (∀ (d : List Nat) (mw : Nat), validInitialDeck d →
      totalLen (GameManager.new d mw) = 25) ∧
    (∀ (g : GameManager) (d : List Nat), validInitialDeck d →
      totalLen (g.reset_round d) = 25) ∧
    (∀ g : GameManager, Reaches g → totalLen g ≤ 25) := by
  refine ⟨?_, ?_, ?_, ?_, ?_⟩
  · intro g g' id m k h
    exact play_movement_total g g' id m k h
  · intro g g' id a k h
    exact play_attack_total g g' id a k h
  · intro d mw hd
    simp [totalLen, GameManager.new, List.length_take, List.length_drop, hd.1]
  · intro g d hd
    simp [totalLen, GameManager.reset_round, List.length_take, List.length_drop, hd.1]
  · intro g hg
    exact (reaches_inv g hg).2.2.2.2.2.2.2.2.2

/-- Witness for Claim C6 at a fresh deal. -/
theorem c6_card_conservation_witness : totalLen (GameManager.new deck25 100) = 25 :=
  c6_card_conservation.2.2.1 deck25 100 (by decide)

/-- Claim C7.  `play_attack` fails exactly when the guard fails: it returns an
error iff it is not the case that the attacker holds at least the requested
number of copies of the played card and the card equals the inter-player
distance `pos(One) − pos(Zero)`; in particular an attack with a wrong card
always fails and an attack requesting more copies than held always fails, for
any hand contents, with the state untouched (see C8). -/
theorem c7_attack_error_iff (g : GameManager) (id : PlayerID) (a : PlayAttack) :
    (∃ e, (g.play_attack id a).1 = Except.error e) ↔
    ¬(a.num_of_card ≤ (g.player id).hand.count a.play_card ∧
      a.play_card = g.board.p1_pos - g.board.p0_pos) := by
  have hstep : g.play_attack id a =
      (if a.num_of_card ≤ ((g.player id).card_positions a.play_card).length ∧
          (g.player id).can_attack g.board a.play_card = true then
        if ((g.player id).card_positions a.play_card).length ≤
            ((g.player id.opposite).card_positions a.play_card).length then
          g.attack_full_defense id a.play_card
        else (.ok (g.round_end_attack id).1, (g.round_end_attack id).2)
      else (.error "攻撃はとどかないか、そんなに枚数持っていません！", g)) := rfl
  have hcnt : ((g.player id).card_positions a.play_card).length =
      (g.player id).hand.count a.play_card := positionsOf_length _ _
  have hca := can_attack_iff g id a.play_card
  constructor
  · rintro ⟨e, he⟩ ⟨hn, hd⟩
    rw [hstep] at he
    rw [if_pos ⟨by omega, hca.2 hd⟩] at he
    split at he
    · obtain ⟨kk, hkk⟩ := attack_full_defense_fst_ok g id a.play_card
      rw [hkk] at he
      simp at he
    · simp at he
  · intro hncond
    have hneg : ¬(a.num_of_card ≤ ((g.player id).card_positions a.play_card).length ∧
        (g.player id).can_attack g.board a.play_card = true) := by
      rintro ⟨hn, hcat⟩
      exact hncond ⟨by omega, hca.1 hcat⟩
    refine ⟨"攻撃はとどかないか、そんなに枚数持っていません！", ?_⟩
    rw [hstep, if_neg hneg]

/-- Claim C8.  A movement whose card is absent from the mover's hand fails
with the card-not-held error and returns the state unchanged; more generally
every validation error of `play_movement` or `play_attack` leaves the whole
state (positions, scores, hands, deck, current player) exactly as it was. -/
theorem c8_error_atomicity :
    (∀ (g : GameManager) (id : PlayerID) (m : PlayMovement),
      m.play_card ∉ (g.player id).hand →
      g.play_movement id m = (.error "そのカードは持ってません!", g)) ∧
    (∀ (g g2 : GameManager) (id : PlayerID) (m : PlayMovement) (e : String),
      g.play_movement id m = (.error e, g2) → g2 = g) ∧
    (∀ (g g2 : GameManager) (id : PlayerID) (a : PlayAttack) (e : String),
      g.play_attack id a = (.error e, g2) → g2 = g) := by
  refine ⟨?_, play_movement_err_state, play_attack_err_state⟩
  intro g id m hmem
  have hpos := (card_pos_none_iff (g.player id) m.play_card).2 hmem
  unfold GameManager.play_movement
  rw [hpos]

/-- Witness for Claim C8: playing a 5 from a hand without one fails and
returns the untouched state. -/
theorem c8_error_atomicity_witness :
    gContC2.play_movement .zero { play_card := 5, direction := .forward } =
      (.error "そのカードは持ってません!", gContC2) :=
  c8_error_atomicity.1 gContC2 .zero { play_card := 5, direction := .forward } (by decide)

/-- Claim C9.  A valid attack that the defender cannot fully match ends the
round at once in favor of the attacker: the attacker's score rises by exactly
one (setting the game winner when the threshold is reached), the opponent's
score, both hands and the deck are untouched, and no stalemate check or
replenishment runs. -/
theorem c9_failed_defense_immediate_win (g : GameManager) (id : PlayerID) (a : PlayAttack)
    (hnum : a.num_of_card ≤ (g.player id).hand.count a.play_card)
    (hdist : a.play_card = g.board.p1_pos - g.board.p0_pos)
    (hdef : (g.player id.opposite).hand.count a.play_card <
      (g.player id).hand.count a.play_card) :
    (g.play_attack id a).1 = .ok (Kekka.REnd (some id)) ∧
    (g.play_attack id a).2.board.score id = g.board.score id + 1 ∧
    (g.play_attack id a).2.board.score id.opposite = g.board.score id.opposite ∧
    (g.play_attack id a).2.p0.hand = g.p0.hand ∧
    (g.play_attack id a).2.p1.hand = g.p1.hand ∧
    (g.play_attack id a).2.board.yamafuda = g.board.yamafuda ∧
    (g.max_win ≤ g.board.score id + 1 → (g.play_attack id a).2.game_end = some id) := by
  have hstep : g.play_attack id a =
      (if a.num_of_card ≤ ((g.player id).card_positions a.play_card).length ∧
          (g.player id).can_attack g.board a.play_card = true then
        if ((g.player id).card_positions a.play_card).length ≤
            ((g.player id.opposite).card_positions a.play_card).length then
          g.attack_full_defense id a.play_card
        else (.ok (g.round_end_attack id).1, (g.round_end_attack id).2)
      else (.error "攻撃はとどかないか、そんなに枚数持っていません！", g)) := rfl
  have hcnt : ((g.player id).card_positions a.play_card).length =
      (g.player id).hand.count a.play_card := positionsOf_length _ _
  have hcntD : ((g.player id.opposite).card_positions a.play_card).length =
      (g.player id.opposite).hand.count a.play_card := positionsOf_length _ _
  have hca := can_attack_iff g id a.play_card
  have hres : g.play_attack id a =
      (.ok (g.round_end_attack id).1, (g.round_end_attack id).2) := by
    rw [hstep, if_pos ⟨by omega, hca.2 hdist⟩, if_neg (by omega)]
  rw [hres]
  refine ⟨?_, ?_, ?_, ?_, ?_, ?_, ?_⟩
  · rw [show ((Except.ok (g.round_end_attack id).1, (g.round_end_attack id).2) :
      Except String Kekka × GameManager).1 = Except.ok (g.round_end_attack id).1 from rfl]
    rw [round_end_attack_fst]
  · exact round_end_attack_snd_score g id
  · exact round_end_attack_snd_score_opp g id
  · rw [show ((Except.ok (g.round_end_attack id).1, (g.round_end_attack id).2) :
      Except String Kekka × GameManager).2 = (g.round_end_attack id).2 from rfl]
    rw [round_end_attack_snd_p0]
  · rw [show ((Except.ok (g.round_end_attack id).1, (g.round_end_attack id).2) :
      Except String Kekka × GameManager).2 = (g.round_end_attack id).2 from rfl]
    rw [round_end_attack_snd_p1]
  · exact round_end_attack_snd_yamafuda g id
  · intro hw
    rw [show ((Except.ok (g.round_end_attack id).1, (g.round_end_attack id).2) :
      Except String Kekka × GameManager).2 = (g.round_end_attack id).2 from rfl]
    rw [round_end_attack_snd_game_end, if_pos hw]

/-- The spec scenario for Claim C9: attacker holds three 4s, defender one 4,
request of 3 at distance 4. -/
def gFailC9 : GameManager :=
  { p0 := { id := .zero, hand := [4, 4, 4, 1, 2] }
    p1 := { id := .one, hand := [4, 5, 5, 5, 3] }
    board := { p0_pos := 10, p1_pos := 14, p0_score := 0, p1_score := 0,
               yamafuda := [1, 2], current_player := .zero }
    first_player := .zero
    game_end := none
    max_win := 100 }

/-- Witness for Claim C9 at the spec's own scenario. -/
theorem c9_failed_defense_witness :
    (gFailC9.play_attack .zero { play_card := 4, num_of_card := 3 }).1 =
      .ok (Kekka.REnd (some .zero)) ∧
    (gFailC9.play_attack .zero { play_card := 4, num_of_card := 3 }).2.board.score .zero =
      gFailC9.board.score .zero + 1 :=
  ⟨(c9_failed_defense_immediate_win gFailC9 .zero { play_card := 4, num_of_card := 3 }
      (by decide) (by decide) (by decide)).1,
   (c9_failed_defense_immediate_win gFailC9 .zero { play_card := 4, num_of_card := 3 }
      (by decide) (by decide) (by decide)).2.1⟩

/-- A state with the played card equal to the distance where the attacker
holds one copy and the defender none: a count-0 request then takes the
failed-defense path, not the full-defense branch. -/
def gMixC10 : GameManager :=
  { p0 := { id := .zero, hand := [2, 1, 1, 3, 4] }
    p1 := { id := .one, hand := [5, 5, 5, 5, 5] }
    board := { p0_pos := 7, p1_pos := 9, p0_score := 0, p1_score := 0,
               yamafuda := [3, 3], current_player := .zero }
    first_player := .zero
    game_end := none
    max_win := 100 }

/-- Claim C10 is false as stated: at `gMixC10` the played card equals the
distance and the requested count is 0, yet the call does **not** proceed
through the full-defense branch — the defender holds fewer copies (0) than the
attacker (1), so the attack instantly wins the round: no matching card is
removed from either hand and the attacker scores a point. -/
theorem c10_count_zero_counterexample :
    (gMixC10.play_attack .zero { play_card := 2, num_of_card := 0 }).1 =
      .ok (Kekka.REnd (some .zero)) ∧
    (gMixC10.play_attack .zero { play_card := 2, num_of_card := 0 }).2.p0.hand =
      gMixC10.p0.hand ∧
    (gMixC10.play_attack .zero { play_card := 2, num_of_card := 0 }).2.p1.hand =
      gMixC10.p1.hand ∧
    (gMixC10.play_attack .zero { play_card := 2, num_of_card := 0 }).2.board.p0_score = 1 :=
  ⟨rfl, rfl, rfl, rfl⟩

/-- Claim C10 (amended).  When the played card equals the inter-player
distance, a requested count of 0 never yields an error (the count precondition
is vacuous); and when additionally the attacker holds **zero** copies of the
card, the call does take the full-defense branch, removing zero cards, so the
defender's hand is untouched. -/
theorem c10_count_zero_no_error :
    (∀ (g : GameManager) (id : PlayerID) (a : PlayAttack),
      a.num_of_card = 0 →
      a.play_card = g.board.p1_pos - g.board.p0_pos →
      ∃ kk, (g.play_attack id a).1 = Except.ok kk) ∧
    (∀ (g : GameManager) (id : PlayerID) (a : PlayAttack),
      a.num_of_card = 0 →
      a.play_card = g.board.p1_pos - g.board.p0_pos →
      (g.player id).hand.count a.play_card = 0 →
      g.play_attack id a = g.attack_full_defense id a.play_card ∧
      ((g.play_attack id a).2.player id.opposite).hand = (g.player id.opposite).hand) := by
  have hstep : ∀ (g : GameManager) (id : PlayerID) (a : PlayAttack), g.play_attack id a =
      (if a.num_of_card ≤ ((g.player id).card_positions a.play_card).length ∧
          (g.player id).can_attack g.board a.play_card = true then
        if ((g.player id).card_positions a.play_card).length ≤
            ((g.player id.opposite).card_positions a.play_card).length then
          g.attack_full_defense id a.play_card
        else (.ok (g.round_end_attack id).1, (g.round_end_attack id).2)
      else (.error "攻撃はとどかないか、そんなに枚数持っていません！", g)) :=
    fun _ _ _ => rfl
  constructor
  · intro g id a hz hd
    rw [hstep g id a, if_pos ⟨by omega, (can_attack_iff g id a.play_card).2 hd⟩]
    split
    · exact attack_full_defense_fst_ok g id a.play_card
    · exact ⟨_, rfl⟩
  · intro g id a hz hd hcount
    have hcnt : ((g.player id).card_positions a.play_card).length =
        (g.player id).hand.count a.play_card := positionsOf_length _ _
    have hres : g.play_attack id a = g.attack_full_defense id a.play_card := by
      rw [hstep g id a, if_pos ⟨by omega, (can_attack_iff g id a.play_card).2 hd⟩,
        if_pos (by omega)]
    refine ⟨hres, ?_⟩
    rw [hres]
    obtain ⟨kk, hkk⟩ := attack_full_defense_fst_ok g id a.play_card
    have hfd2 : g.attack_full_defense id a.play_card =
        (Except.ok kk, (g.attack_full_defense id a.play_card).2) := by
      rw [← hkk]
    have hcase := attack_full_defense_inv g id a.play_card kk
      (g.attack_full_defense id a.play_card).2 hfd2 _ rfl _ rfl
    have hposnil : (g.player id).card_positions a.play_card = [] := by
      have := hcnt
      rw [hcount] at this
      exact List.length_eq_zero.1 this
    set g1 := g.set_player id.opposite { g.player id.opposite with
        hand := removeIdxs (g.player id.opposite).hand
          (((g.player id.opposite).card_positions a.play_card).reverse.take
            ((g.player id).card_positions a.play_card).length) } with hg1
    set g2 := g1.set_player id { g1.player id with
        hand := removeIdxs (g1.player id).hand
          ((g.player id).card_positions a.play_card).reverse } with hg2
    have hg1opp : (g1.player id.opposite).hand = (g.player id.opposite).hand := by
      rw [hg1]
      simp [hposnil, removeIdxs_nil]
    have hg2opp : (g2.player id.opposite).hand = (g.player id.opposite).hand := by
      rw [hg2]
      simpa using hg1opp
    rcases hcase with ⟨_, _, hg'⟩ | ⟨_, hrest2⟩
    · rw [hg']
      exact hg2opp
    · rcases hrest2 with ⟨hand, yam, _, _, hg'⟩ | ⟨hand, yam, _, _, hg'⟩ <;>
        (rw [hg']
         simpa using hg2opp)

/-- A state with the played card equal to the distance where the attacker
holds no copy at all: the count-0 attack sails through the full-defense
branch, removing nothing. -/
def gZeroC10 : GameManager :=
  { p0 := { id := .zero, hand := [1, 1, 3, 4, 5] }
    p1 := { id := .one, hand := [2, 5, 5, 5, 4] }
    board := { p0_pos := 7, p1_pos := 9, p0_score := 0, p1_score := 0,
               yamafuda := [3, 3], current_player := .zero }
    first_player := .zero
    game_end := none
    max_win := 100 }

/-- Witness for the amended Claim C10 at a zero-copies attack. -/
theorem c10_count_zero_no_error_witness :
    gZeroC10.play_attack .zero { play_card := 2, num_of_card := 0 } =
      gZeroC10.attack_full_defense .zero 2 ∧
    ((gZeroC10.play_attack .zero { play_card := 2, num_of_card := 0 }).2.player .one).hand =
      gZeroC10.p1.hand :=
  c10_count_zero_no_error.2 gZeroC10 .zero { play_card := 2, num_of_card := 0 }
    rfl (by decide) (by decide)

end Engarde
